import Mathlib

/-!
# Verification of the libPLUMP HPYP model core (`src/libplump/hpyp_model.cc`)

This development shallowly embeds `HPYPModel` from `hpyp_model.cc`.  The
model orchestrates external collaborators (the restaurant abstraction, the
context tree, the parameter provider, the random source) whose code lives
outside the verified source file; those collaborators appear here as
function parameters, and where a fact depends on their behaviour the
corresponding contract is an explicit hypothesis or a definition marked
`Modelled from the spec:`.

Doubles are modelled as exact rationals (`ℚ`); log-space values that may be
`-INFINITY` are modelled as `Option ℚ` with `none` standing for `-∞`.

The file is organised as definitions first, then the lemmas and the claim
theorems.
-/

namespace LibPlump

/-! ### Data model -/

/-- Symbol type (`e_type`): a discrete symbol. -/
abbrev e_type := ℕ

/-- Position type (`l_type`): an index into the sequence. -/
abbrev l_type := ℤ

/-- A node handle on a path: the context range `seq[start..end)` plus the
opaque restaurant payload, modelled as a node identifier. -/
structure WrappedNode where
  start : l_type
  end_ : l_type
  payload : ℕ
  deriving DecidableEq, Repr

instance : Inhabited WrappedNode := ⟨⟨0, 0, 0⟩⟩

/-- A root-to-deepest path of nodes (`WrappedNodeList`). -/
abbrev WrappedNodeList := List WrappedNode

/-- A vector of doubles (`d_vec`), modelled with exact rationals. -/
abbrev d_vec := List ℚ

/-- The type of `IAddRemoveRestaurant::computeProbability`, abstracted over
the payload: arguments are payload, type, parent probability, discount,
concentration. -/
abbrev ComputeProbability := ℕ → e_type → ℚ → ℚ → ℚ → ℚ

/-- The type of `IAddRemoveRestaurant::addCustomer`, abstracted over the
payload and made state-passing: arguments are the restaurant state, the
payload, the type, the parent probability, discount, concentration, and the
fractional customer weight (`newTable`); the result is the new restaurant
state together with the returned new-table fraction. -/
abbrev AddCustomer (σ : Type) := σ → ℕ → e_type → ℚ → ℚ → ℚ → ℚ → σ × ℚ

/-- The type of `IAddRemoveRestaurant::removeCustomer`, state-passing:
arguments are the restaurant state, the payload, the type, the discount,
the optional per-node additional data, and the fractional removal weight;
the result is the new state and the removed-table fraction. -/
abbrev RemoveCustomer (σ α : Type) := σ → ℕ → e_type → ℚ → Option α → ℚ → σ × ℚ

/-! ### Definitions: `computeProbabilityPath` (hpyp_model.cc:808-831) -/

/-- The loop of `HPYPModel::computeProbabilityPath` (hpyp_model.cc:818-829):
walk the path root to deepest, carrying the running probability through
`restaurant.computeProbability` and consuming the aligned discount and
concentration vectors.  A misaligned call (vectors shorter than the path)
reads out of bounds in C++; the embedding stops there, and every theorem
about it carries the alignment hypotheses. -/
def computeProbabilityPathGo (cp : ComputeProbability) (obs : e_type) :
    WrappedNodeList → d_vec → d_vec → ℚ → d_vec
  | [], _, _, _ => []
  | node :: rest, d :: ds, c :: cs, prob =>
      let prob2 := cp node.payload obs prob d c
      prob2 :: computeProbabilityPathGo cp obs rest ds cs prob2
  | _ :: _, _, _, _ => []

/-- `HPYPModel::computeProbabilityPath` (hpyp_model.cc:808-831): the output
starts with the base probability and then carries one predictive
probability per node on the path. -/
def computeProbabilityPath (cp : ComputeProbability) (baseProb : ℚ)
    (path : WrappedNodeList) (discount_path concentration_path : d_vec)
    (obs : e_type) : d_vec :=
  baseProb ::
    computeProbabilityPathGo cp obs path discount_path concentration_path baseProb

/-! ### Definitions: `updatePath` (hpyp_model.cc:834-857) -/

/-- The loop of `HPYPModel::updatePath` (hpyp_model.cc:840-856), expressed
on the reversed (deepest-first) path with the aligned reversed slices of
the probability, discount and concentration vectors: seat a customer at
each node, chain the returned fraction into the next call, and stop as
soon as the fraction is `0`. -/
def updatePathGo {σ : Type} (ac : AddCustomer σ) (obs : e_type) :
    WrappedNodeList → d_vec → d_vec → d_vec → ℚ → σ → σ
  | [], _, _, _, _, s => s
  | node :: rest, pj :: ps, dj :: ds, cj :: cs, newTable, s =>
      let r := ac s node.payload obs pj dj cj newTable
      if r.2 = 0 then r.1 else updatePathGo ac obs rest ps ds cs r.2 r.1
  | _ :: _, _, _, _, _, s => s

/-- `HPYPModel::updatePath` (hpyp_model.cc:834-857): iterate the path in
reverse order; the index `j` starts at `path.size() - 1`, so node `path[j]`
is seated with `prob_path[j]`, `discount_path[j]`, `concentration_path[j]`;
the initial customer weight is `1`. -/
def updatePath {σ : Type} (ac : AddCustomer σ) (obs : e_type)
    (path : WrappedNodeList)
    (prob_path discount_path concentration_path : d_vec) (s : σ) : σ :=
  updatePathGo ac obs path.reverse (prob_path.take path.length).reverse
    discount_path.reverse concentration_path.reverse 1 s

/-- The claim's reading of `updatePath`: walk the node indices from
`path.length - 1` down to `0`, seating one customer at node `j` with the
probability-path entry at the node's own index `j`, carrying the returned
fraction as the next customer weight, and stopping on a `0` fraction. -/
def seatFrom {σ : Type} (ac : AddCustomer σ) (obs : e_type)
    (path : WrappedNodeList) (p d c : d_vec) : ℕ → ℚ → σ → σ
  | 0, w, s =>
      (ac s ((path.getD 0 default).payload) obs (p.getD 0 0) (d.getD 0 0)
        (c.getD 0 0) w).1
  | j + 1, w, s =>
      let r := ac s ((path.getD (j + 1) default).payload) obs (p.getD (j + 1) 0)
        (d.getD (j + 1) 0) (c.getD (j + 1) 0) w
      if r.2 = 0 then r.1 else seatFrom ac obs path p d c j r.2 r.1

/-! ### Definitions: `removeObservationFromPath` (hpyp_model.cc:860-886) and
`removeObservation` (hpyp_model.cc:166-190) -/

/-- The loop of `HPYPModel::removeObservationFromPath` (hpyp_model.cc:870-885)
on the reversed path: remove a customer at each node (deepest first), chain
the returned fraction, stop on `0`. -/
def removeObservationFromPathGo {σ α : Type} (rc : RemoveCustomer σ α)
    (obs : e_type) :
    WrappedNodeList → d_vec → List (Option α) → ℚ → σ → σ
  | [], _, _, _, s => s
  | node :: rest, dj :: ds, pd :: pds, frac, s =>
      let r := rc s node.payload obs dj pd frac
      if r.2 = 0 then r.1 else removeObservationFromPathGo rc obs rest ds pds r.2 r.1
  | _ :: _, _, _, _, s => s

/-- `HPYPModel::removeObservationFromPath` (hpyp_model.cc:860-886): the
per-node additional data is passed only when the `payloadDataPath` has the
same length as the path, otherwise `NULL`. -/
def removeObservationFromPath {σ α : Type} (rc : RemoveCustomer σ α)
    (path : WrappedNodeList) (discountPath : d_vec) (obs : e_type)
    (payloadDataPath : List α) (s : σ) : σ :=
  let pds : List (Option α) :=
    if payloadDataPath.length = path.length then payloadDataPath.map some
    else List.replicate path.length none
  removeObservationFromPathGo rc obs path.reverse discountPath.reverse
    pds.reverse 1 s

/-- `HPYPModel::removeObservation` (hpyp_model.cc:166-190).  The path is the
cached path when one is supplied, otherwise the longest-suffix lookup.  The
function then executes `assert(path.back().end == (*cached_path).back().end)`
unconditionally: when `cached_path` is `NULL` this dereferences the null
pointer, which the embedding models by returning `none` (undefined
behaviour); when the assertion's comparison fails the embedding also
returns `none` (assertion failure aborts). -/
def removeObservation {σ α : Type} (rc : RemoveCustomer σ α)
    (findLongestSuffix : l_type → l_type → WrappedNodeList)
    (getDiscounts : WrappedNodeList → d_vec)
    (start stop : l_type) (obs : e_type) (payloadDataPath : List α)
    (cached_path : Option WrappedNodeList) (s : σ) : Option σ :=
  let path := match cached_path with
    | some p => p
    | none => findLongestSuffix start stop
  match cached_path with
  | none => none
  | some cp =>
      if (path.getLast?.map WrappedNode.end_) = (cp.getLast?.map WrappedNode.end_)
      then some (removeObservationFromPath rc path (getDiscounts path) obs
        payloadDataPath s)
      else none

/-! ### Definitions: `insertRoot` (hpyp_model.cc:47-61) and `computeLosses`
(hpyp_model.cc:217-248) -/

/-- `HPYPModel::insertRoot` (hpyp_model.cc:47-61): look up the path of the
empty context `(0,0)` — the root-only path — compute its parameter and
probability paths, and seat the observation along that path. -/
def insertRoot {σ : Type} (cp : ComputeProbability) (ac : AddCustomer σ)
    (findLongestSuffix : l_type → l_type → WrappedNodeList)
    (getDiscounts : WrappedNodeList → d_vec)
    (getConcentrations : WrappedNodeList → d_vec → d_vec)
    (baseProb : ℚ) (s : σ) (obs : e_type) : σ :=
  let root_path := findLongestSuffix 0 0
  let discount_path := getDiscounts root_path
  let concentration_path := getConcentrations root_path discount_path
  let prob_path := computeProbabilityPath cp baseProb root_path discount_path
    concentration_path obs
  updatePath ac obs root_path prob_path discount_path concentration_path s

/-- The loop of `HPYPModel::computeLosses` (hpyp_model.cc:228-240), with the
iteration count made explicit: at position `i` it calls
`insertContextAndObservation(start, i, seq[i])` (abstracted as `icao`,
which returns the new model state and the probability path), reads the
second-to-last entry `prob_path[prob_path.size()-2]`, and records
`-log2` of it. -/
def computeLossesLoop {σ : Type} (icao : σ → l_type → l_type → e_type → σ × d_vec)
    (log2Q : ℚ → ℚ) (seq : l_type → e_type) (start : l_type) :
    ℕ → l_type → σ → List ℚ × σ
  | 0, _, s => ([], s)
  | k + 1, i, s =>
      let r := icao s start i (seq i)
      let prob := r.2.getD (r.2.length - 2) 0
      let rest := computeLossesLoop icao log2Q seq start k (i + 1) r.1
      (-log2Q prob :: rest.1, rest.2)

/-- `HPYPModel::computeLosses` (hpyp_model.cc:217-248): record
`log2(numTypes)` for the first symbol, seat it at the root via
`insertRoot`, then loop `i = start+1 .. stop-1`. -/
def computeLosses {σ : Type} (cp : ComputeProbability) (ac : AddCustomer σ)
    (findLongestSuffix : l_type → l_type → WrappedNodeList)
    (getDiscounts : WrappedNodeList → d_vec)
    (getConcentrations : WrappedNodeList → d_vec → d_vec)
    (icao : σ → l_type → l_type → e_type → σ × d_vec)
    (log2Q : ℚ → ℚ) (seq : l_type → e_type) (baseProb : ℚ) (numTypes : ℕ)
    (start stop : l_type) (s : σ) : List ℚ × σ :=
  let s1 := insertRoot cp ac findLongestSuffix getDiscounts getConcentrations
    baseProb s (seq start)
  let r := computeLossesLoop icao log2Q seq start ((stop - (start + 1)).toNat)
    (start + 1) s1
  (log2Q (numTypes : ℚ) :: r.1, r.2)

/-- The model state after `k` iterations of the `computeLosses` loop that
started at position `i` in state `s`. -/
def icaoStateFrom {σ : Type} (icao : σ → l_type → l_type → e_type → σ × d_vec)
    (seq : l_type → e_type) (start : l_type) :
    ℕ → l_type → σ → σ
  | 0, _, s => s
  | k + 1, i, s => icaoStateFrom icao seq start k (i + 1) (icao s start i (seq i)).1

/-- The probability path produced by iteration `k` (0-based) of the
`computeLosses` loop that started at position `i0` in state `s0`. -/
def icaoPPAt {σ : Type} (icao : σ → l_type → l_type → e_type → σ × d_vec)
    (seq : l_type → e_type) (start : l_type) (i0 : l_type) (s0 : σ) (k : ℕ) :
    d_vec :=
  let s := icaoStateFrom icao seq start k i0 s0
  (icao s start (i0 + k) (seq (i0 + k))).2

/-! ### Definitions: predictive queries (hpyp_model.cc:324-451) -/

/-- The restaurant payload store behind the factory: the per-payload
restaurant data and the next fresh payload id.  Unallocated slots hold
arbitrary data; `factoryMake` initialises the slot it hands out. -/
structure RestStore (R : Type) where
  data : ℕ → R
  next : ℕ

/-- `IRestaurantFactory::make`.  Modelled from the spec: the factory (part
of the restaurant abstraction, outside the verified source) returns a
fresh payload holding the empty restaurant state. -/
def factoryMake {R : Type} (emptyR : R) (st : RestStore R) : ℕ × RestStore R :=
  (st.next,
    ⟨fun p => if p = st.next then emptyR else st.data p, st.next + 1⟩)

/-- `IRestaurantFactory::recycle`.  Modelled from the spec: the payload is
returned to the factory; its slot reverts to the empty restaurant state. -/
def factoryRecycle {R : Type} (emptyR : R) (st : RestStore R) (pay : ℕ) :
    RestStore R :=
  ⟨fun p => if p = pay then emptyR else st.data p, st.next⟩

/-- `IAddRemoveRestaurant::updateAfterSplit(old, new, dBefore, dAfter, true)`.
Modelled from the spec (the restaurant implementation is outside the
verified source): in only-new mode — the mode used by
`predictWithFragmentation` (hpyp_model.cc:385-390, "update splitNode
only") — only the new payload's data changes; the result is an arbitrary
function `uasNew` of the old data, the new data, and the two discounts. -/
def updateAfterSplitOnlyNew {R : Type} (uasNew : R → R → ℚ → ℚ → R)
    (st : RestStore R) (oldPay newPay : ℕ) (dBefore dAfter : ℚ) : RestStore R :=
  ⟨fun p => if p = newPay then
      uasNew (st.data oldPay) (st.data newPay) dBefore dAfter
    else st.data p, st.next⟩

/-- Lift a data-level `computeProbability` to payload level through a
store. -/
def cpOf {R : Type} (cpR : R → e_type → ℚ → ℚ → ℚ → ℚ) (st : RestStore R) :
    ComputeProbability :=
  fun pay obs prob d c => cpR (st.data pay) obs prob d c

/-- `HPYPModel::predict` (hpyp_model.cc:324-335), ABOVE mode: longest
suffix path, return the last probability-path entry.  The store is
returned unchanged: the body only reads it. -/
def predict {R : Type} (cpR : R → e_type → ℚ → ℚ → ℚ → ℚ)
    (findLongestSuffix : l_type → l_type → WrappedNodeList)
    (getDiscounts : WrappedNodeList → d_vec)
    (getConcentrations : WrappedNodeList → d_vec → d_vec) (baseProb : ℚ)
    (st : RestStore R) (start stop : l_type) (obs : e_type) : ℚ × RestStore R :=
  let path := findLongestSuffix start stop
  let discount_path := getDiscounts path
  let concentration_path := getConcentrations path discount_path
  let prob_path := computeProbabilityPath (cpOf cpR st) baseProb path
    discount_path concentration_path obs
  (prob_path.getLastD 0, st)

/-- `HPYPModel::predictBelow` (hpyp_model.cc:342-354), BELOW mode: use the
path component of the virtual longest-suffix lookup, return the last
probability-path entry. -/
def predictBelow {R : Type} (cpR : R → e_type → ℚ → ℚ → ℚ → ℚ)
    (findLongestSuffixVirtual : l_type → l_type → ℤ × WrappedNodeList)
    (getDiscounts : WrappedNodeList → d_vec)
    (getConcentrations : WrappedNodeList → d_vec → d_vec) (baseProb : ℚ)
    (st : RestStore R) (start stop : l_type) (obs : e_type) : ℚ × RestStore R :=
  let path := (findLongestSuffixVirtual start stop).2
  let discount_path := getDiscounts path
  let concentration_path := getConcentrations path discount_path
  let prob_path := computeProbabilityPath (cpOf cpR st) baseProb path
    discount_path concentration_path obs
  (prob_path.getLastD 0, st)

/-- `HPYPModel::predictWithFragmentation` (hpyp_model.cc:357-401),
FRAGMENT mode: when the virtual lookup reports a fragmentation
(`path.first != 0`) a transient payload is made, updated in only-new
split mode, queried with the second-to-last probability-path entry as the
parent probability, and recycled; otherwise the result is the last
probability-path entry, exactly as in BELOW mode. -/
def predictWithFragmentation {R : Type} (cpR : R → e_type → ℚ → ℚ → ℚ → ℚ)
    (findLongestSuffixVirtual : l_type → l_type → ℤ × WrappedNodeList)
    (getDiscounts : WrappedNodeList → d_vec)
    (getConcentrations : WrappedNodeList → d_vec → d_vec)
    (getDiscount : ℤ → ℤ → ℚ) (getConcentration : ℚ → ℤ → ℤ → ℚ)
    (uasNew : R → R → ℚ → ℚ → R) (emptyR : R) (baseProb : ℚ)
    (st : RestStore R) (start stop : l_type) (obs : e_type) : ℚ × RestStore R :=
  let pr := findLongestSuffixVirtual start stop
  let path := pr.2
  let discountPath := getDiscounts path
  let concentrationPath := getConcentrations path discountPath
  let probabilityPath := computeProbabilityPath (cpOf cpR st) baseProb path
    discountPath concentrationPath obs
  if pr.1 ≠ 0 then
    let mk := factoryMake emptyR st
    let splitNode := mk.1
    let st1 := mk.2
    let parentNode := path.getD (path.length - 2) default
    let parentLength := parentNode.end_ - parentNode.start
    let _discountAfter := getDiscount pr.1 (parentNode.end_ - parentNode.start)
    let lastNode := path.getD (path.length - 1) default
    let discountFragmented := getDiscount parentLength pr.1
    let st2 := updateAfterSplitOnlyNew uasNew st1 lastNode.payload splitNode
      (discountPath.getLastD 0) discountFragmented
    let concentrationFragmented := getConcentration discountFragmented
      parentLength pr.1
    let probability := cpR (st2.data splitNode) obs
      (probabilityPath.getD (probabilityPath.length - 2) 0)
      discountFragmented concentrationFragmented
    (probability, factoryRecycle emptyR st2 splitNode)
  else
    (probabilityPath.getLastD 0, st)

/-- `HPYPModel::predictiveDistribution` (hpyp_model.cc:404-421): one
probability path per type over a shared `(path, d, α)`. -/
def predictiveDistribution {R : Type} (cpR : R → e_type → ℚ → ℚ → ℚ → ℚ)
    (findLongestSuffix : l_type → l_type → WrappedNodeList)
    (getDiscounts : WrappedNodeList → d_vec)
    (getConcentrations : WrappedNodeList → d_vec → d_vec) (baseProb : ℚ)
    (numTypes : ℕ) (st : RestStore R) (start stop : l_type) :
    List ℚ × RestStore R :=
  let path := findLongestSuffix start stop
  let discount_path := getDiscounts path
  let concentration_path := getConcentrations path discount_path
  ((List.range numTypes).map (fun i =>
      (computeProbabilityPath (cpOf cpR st) baseProb path discount_path
        concentration_path i).getLastD 0),
    st)

/-- `HPYPModel::predictiveDistributionWithMixing` (hpyp_model.cc:424-451):
for each type, mix the probability-path entries with the given weights and
give the remaining mass to the last entry. -/
def predictiveDistributionWithMixing {R : Type}
    (cpR : R → e_type → ℚ → ℚ → ℚ → ℚ)
    (findLongestSuffix : l_type → l_type → WrappedNodeList)
    (getDiscounts : WrappedNodeList → d_vec)
    (getConcentrations : WrappedNodeList → d_vec → d_vec) (baseProb : ℚ)
    (numTypes : ℕ) (mixingWeights : d_vec) (st : RestStore R)
    (start stop : l_type) : List ℚ × RestStore R :=
  let path := findLongestSuffix start stop
  let discount_path := getDiscounts path
  let concentration_path := getConcentrations path discount_path
  ((List.range numTypes).map (fun i =>
      let prob_path := computeProbabilityPath (cpOf cpR st) baseProb path
        discount_path concentration_path i
      let m := min mixingWeights.length prob_path.length
      let prob := ((List.range m).map
        (fun j => mixingWeights.getD j 0 * prob_path.getD j 0)).sum
      let sum := ((List.range m).map (fun j => mixingWeights.getD j 0)).sum
      prob + (1 - sum) * prob_path.getLastD 0),
    st)

/-! ### Definitions: the CRP restaurant model (for the insert/remove
round trip) -/

/-- The table configuration of one restaurant for one type: the multiset
of table occupancies, as a list. -/
abbrev Tables := List ℕ

/-- The seating state of every restaurant: per payload and type, the table
occupancies. -/
abbrev CRPData := ℕ → e_type → Tables

/-- Modelled from the spec: the add/remove restaurant's seating step
(`hpyp_restaurants.cc` is not part of the verified source).  Following
§4.2 of the spec, a new customer either sits at an existing table —
`choice < tables.length` picks that table, no table opens, the returned
fraction is `0` — or opens a new table with one customer (any other
`choice`), returning fraction `1` so the caller propagates a customer to
the parent.  Which alternative has which probability is external
randomness, abstracted into `choice`. -/
def crpSeat (tables : Tables) (choice : ℕ) : Tables × ℚ :=
  if h : choice < tables.length then
    (tables.set choice (tables.get ⟨choice, h⟩ + 1), 0)
  else (tables ++ [1], 1)

/-- Modelled from the spec: the add/remove restaurant's removal step.  A
customer of the type is removed from table `choice`; if the table becomes
empty it is closed and the returned fraction is `1` (the caller propagates
a removal to the parent), otherwise `0`.  An out-of-range choice removes
nothing. -/
def crpUnseat (tables : Tables) (choice : ℕ) : Tables × ℚ :=
  if h : choice < tables.length then
    if tables.get ⟨choice, h⟩ ≤ 1 then (tables.eraseIdx choice, 1)
    else (tables.set choice (tables.get ⟨choice, h⟩ - 1), 0)
  else (tables, 0)

/-- The CRP restaurant state threaded through the path walks: the seating
data together with the stream of pending random choices. -/
abbrev CRPState := CRPData × List ℕ

/-- Point update of the seating data at one payload and type. -/
def crpUpdate (dat : CRPData) (pay : ℕ) (y : e_type) (t : Tables) : CRPData :=
  fun p y' => if p = pay ∧ y' = y then t else dat p y'

/-- The spec-modelled `addCustomer` over `CRPState`: seat one customer of
the type at the payload, consuming one random choice.  The parent
probability, discount, concentration and fractional weight only influence
the distribution of the random choice, which is abstracted into the choice
stream. -/
def crpAddCustomer : AddCustomer CRPState :=
  fun s pay y _ _ _ _ =>
    let r := crpSeat (s.1 pay y) (s.2.headD 0)
    ((crpUpdate s.1 pay y r.1, s.2.tail), r.2)

/-- The spec-modelled `removeCustomer` over `CRPState`: remove one customer
of the type at the payload, consuming one random choice. -/
def crpRemoveCustomer : RemoveCustomer CRPState Unit :=
  fun s pay y _ _ _ =>
    let r := crpUnseat (s.1 pay y) (s.2.headD 0)
    ((crpUpdate s.1 pay y r.1, s.2.tail), r.2)

/-- A valid seating state: every open table has at least one customer. -/
def CRPValid (dat : CRPData) : Prop :=
  ∀ (p : ℕ) (y : e_type), ∀ m ∈ dat p y, 1 ≤ m

/-! ### Definitions: log-space doubles and the direct Gibbs sampler
(hpyp_model.cc:564-696) -/

/-- A log-space double: `none` models IEEE `-INFINITY`. -/
abbrev LogQ := Option ℚ

/-- Subtraction of a finite value from a log-space double. -/
def lsubQ (x : LogQ) (m : ℚ) : LogQ := x.map (fun q => q - m)

/-- Binary maximum of log-space doubles. -/
def lmax2 : LogQ → LogQ → LogQ
  | none, y => y
  | some a, none => some a
  | some a, some b => some (max a b)

/-- Maximum of a vector of log-space doubles; `none` when the vector is
empty or all entries are `-∞`. -/
def lmaxQ (v : List LogQ) : LogQ := v.foldr lmax2 none

/-- `subMax_vec` from the numeric utilities: subtract the maximum entry
from every entry.  When the maximum is `-INFINITY` the C++ code would
produce NaNs; the embedding leaves the vector unchanged there, and every
statement that touches this case carries a non-degeneracy hypothesis. -/
def subMax_vec (v : List LogQ) : List LogQ :=
  match lmaxQ v with
  | none => v
  | some m => v.map (fun x => lsubQ x m)

/-- The compact restaurant state used by the direct Gibbs sampler: per
payload and type, the customer and table counts, plus the list of
observed types per payload (for the totals `getC(payload)` and
`getT(payload)`). -/
structure CompactState where
  c : ℕ → e_type → ℤ
  t : ℕ → e_type → ℤ
  types : ℕ → List e_type

/-- A small concrete compact state used to exercise the direct Gibbs
step: node `1` (child) with `c = 2`, node `0` (parent) with `c = 5`, all
table counts `1`, one observed type `0` everywhere. -/
def dgExampleState : CompactState :=
  ⟨fun p _ => if p = 1 then 2 else 5, fun _ _ => 1, fun _ => [0]⟩

/-- `getC(payload)`: total customers, summed over the observed types. -/
def csGetC (s : CompactState) (pay : ℕ) : ℤ :=
  ((s.types pay).map (s.c pay)).sum

/-- `getT(payload)`: total tables, summed over the observed types. -/
def csGetT (s : CompactState) (pay : ℕ) : ℤ :=
  ((s.types pay).map (s.t pay)).sum

/-- `HPYPModel::computeLogRestaurantProb` (hpyp_model.cc:951-996): the
contribution of the terminal node of `path`; a deterministic node
(`c == 1`) contributes `0`; at the root (`j == 0`) each type adds
`tw * log(baseProb)` inside the type loop. -/
def computeLogRestaurantProb (logKramp : ℚ → ℚ → ℤ → ℚ) (logQ : ℚ → ℚ)
    (s : CompactState) (path : WrappedNodeList)
    (discountPath concentrationPath : d_vec)
    (payloadDataPath : List (ℤ → ℤ → ℚ)) (baseProb : ℚ) : ℚ :=
  let payload := (path.getLastD default).payload
  let j := discountPath.length - 1
  let c := csGetC s payload
  if c = 1 then 0
  else
    let t := csGetT s payload
    let stirlingGen := payloadDataPath.getD j (fun _ _ => 0)
    logKramp (concentrationPath.getD j 0 + discountPath.getD j 0)
        (discountPath.getD j 0) (t - 1) -
      logKramp (concentrationPath.getD j 0 + 1) 1 (c - 1) +
      ((s.types payload).map (fun ty =>
        stirlingGen (s.c payload ty) (s.t payload ty) +
        (if j = 0 then (s.t payload ty : ℚ) * logQ baseProb else 0))).sum

/-- The claim's formula for a single node's contribution:
`logKramp(α+d, d, t-1) - logKramp(α+1, 1, c-1) + Σ_y logStirling(c_y, t_y)`,
plus at the root `Σ_y t_y · log(baseProb)`; a deterministic node
contributes exactly `0`. -/
def logRestaurantProbSpec (logKramp : ℚ → ℚ → ℤ → ℚ) (logQ : ℚ → ℚ)
    (logStirling : ℤ → ℤ → ℚ) (s : CompactState) (payload : ℕ)
    (d conc : ℚ) (isRoot : Bool) (baseProb : ℚ) : ℚ :=
  if csGetC s payload = 1 then 0
  else
    logKramp (conc + d) d (csGetT s payload - 1) -
      logKramp (conc + 1) 1 (csGetC s payload - 1) +
      ((s.types payload).map (fun ty =>
        logStirling (s.c payload ty) (s.t payload ty))).sum +
      (if isRoot then
        ((s.types payload).map (fun ty =>
          (s.t payload ty : ℚ) * logQ baseProb)).sum
       else 0)

/-- The incremental maintenance of the discount, concentration and
additional-data paths across one DFS transition, shared by
`runGibbsSampler` (hpyp_model.cc:739-790) and `computeLogJoint`
(hpyp_model.cc:1020-1071): same length — sibling (pop one entry,
re-extend); one shorter — ascent (pop one entry); otherwise — ascent
then descent (pop one entry, re-extend, fill the data path up to the new
length). -/
def updatePaths (getDiscounts : WrappedNodeList → d_vec)
    (getConcentrations : WrappedNodeList → d_vec → d_vec)
    (extendDiscounts : WrappedNodeList → d_vec → d_vec)
    (extendConcentrations : WrappedNodeList → d_vec → d_vec → d_vec)
    (makeData : ℕ → ℚ → ℚ → (ℤ → ℤ → ℚ))
    (prev cur : WrappedNodeList) (dP cP : d_vec)
    (pdp : List (ℤ → ℤ → ℚ)) :
    d_vec × d_vec × List (ℤ → ℤ → ℚ) :=
  if cur.length = prev.length then
    let d1 := extendDiscounts cur dP.dropLast
    let c1 := extendConcentrations cur d1 cP.dropLast
    (d1, c1, pdp.dropLast ++
      [makeData ((cur.getLastD default).payload) (d1.getLastD 0)
        (c1.getLastD 0)])
  else if cur.length = prev.length - 1 then
    (dP.dropLast, cP.dropLast, pdp.dropLast)
  else
    let d1 := extendDiscounts cur dP.dropLast
    let c1 := extendConcentrations cur d1 cP.dropLast
    let pdp0 := pdp.dropLast
    (d1, c1, pdp0 ++ (List.range (d1.length - pdp0.length)).map (fun k =>
      makeData ((cur.getD (pdp0.length + k) default).payload)
        (d1.getD (pdp0.length + k) 0) (c1.getD (pdp0.length + k) 0)))

/-- The additional-data path built for the first DFS path
(hpyp_model.cc:1007-1014 and 720-727). -/
def initialDataPath (makeData : ℕ → ℚ → ℚ → (ℤ → ℤ → ℚ))
    (p : WrappedNodeList) (dP cP : d_vec) : List (ℤ → ℤ → ℚ) :=
  (List.range p.length).map (fun j =>
    makeData ((p.getD j default).payload) (dP.getD j 0) (cP.getD j 0))

/-- The loop of `HPYPModel::computeLogJoint` (hpyp_model.cc:1020-1075). -/
def logJointGo (logKramp : ℚ → ℚ → ℤ → ℚ) (logQ : ℚ → ℚ)
    (getDiscounts : WrappedNodeList → d_vec)
    (getConcentrations : WrappedNodeList → d_vec → d_vec)
    (extendDiscounts : WrappedNodeList → d_vec → d_vec)
    (extendConcentrations : WrappedNodeList → d_vec → d_vec → d_vec)
    (makeData : ℕ → ℚ → ℚ → (ℤ → ℤ → ℚ)) (s : CompactState)
    (baseProb : ℚ) :
    List WrappedNodeList → WrappedNodeList → d_vec → d_vec →
      List (ℤ → ℤ → ℚ) → ℚ → ℚ
  | [], _, _, _, _, acc => acc
  | cur :: rest, prev, dP, cP, pdp, acc =>
      let u := updatePaths getDiscounts getConcentrations extendDiscounts
        extendConcentrations makeData prev cur dP cP pdp
      logJointGo logKramp logQ getDiscounts getConcentrations
        extendDiscounts extendConcentrations makeData s baseProb rest cur
        u.1 u.2.1 u.2.2
        (acc + computeLogRestaurantProb logKramp logQ s cur u.1 u.2.1 u.2.2
          baseProb)

/-- `HPYPModel::computeLogJoint` (hpyp_model.cc:998-1077) over the
spec-modelled DFS path list. -/
def computeLogJoint (logKramp : ℚ → ℚ → ℤ → ℚ) (logQ : ℚ → ℚ)
    (getDiscounts : WrappedNodeList → d_vec)
    (getConcentrations : WrappedNodeList → d_vec → d_vec)
    (extendDiscounts : WrappedNodeList → d_vec → d_vec)
    (extendConcentrations : WrappedNodeList → d_vec → d_vec → d_vec)
    (makeData : ℕ → ℚ → ℚ → (ℤ → ℤ → ℚ)) (s : CompactState)
    (baseProb : ℚ) (dfsPaths : List WrappedNodeList) : ℚ :=
  match dfsPaths with
  | [] => 0
  | p0 :: rest =>
      let d0 := getDiscounts p0
      let c0 := getConcentrations p0 d0
      let pdp0 := initialDataPath makeData p0 d0 c0
      logJointGo logKramp logQ getDiscounts getConcentrations
        extendDiscounts extendConcentrations makeData s baseProb rest p0
        d0 c0 pdp0
        (computeLogRestaurantProb logKramp logQ s p0 d0 c0 pdp0 baseProb)

section ProbabilityPathLemmas

variable (cp : ComputeProbability)

lemma computeProbabilityPathGo_length (obs : e_type) :
    ∀ (path : WrappedNodeList) (ds cs : d_vec) (prob : ℚ),
      ds.length = path.length → cs.length = path.length →
      (computeProbabilityPathGo cp obs path ds cs prob).length = path.length := by
  intro path
  induction path with
  | nil => intro ds cs prob _ _; simp [computeProbabilityPathGo]
  | cons node rest ih =>
      intro ds cs prob hd hc
      match ds, cs with
      | d :: ds', c :: cs' =>
          simp only [computeProbabilityPathGo, List.length_cons]
          rw [ih ds' cs' _ (by simpa using hd) (by simpa using hc)]

lemma computeProbabilityPathGo_getD (obs : e_type) :
    ∀ (path : WrappedNodeList) (ds cs : d_vec) (prob : ℚ) (k : ℕ),
      ds.length = path.length → cs.length = path.length → k < path.length →
      (computeProbabilityPathGo cp obs path ds cs prob).getD k 0 =
        cp ((path.getD k default).payload) obs
          (if k = 0 then prob
           else (computeProbabilityPathGo cp obs path ds cs prob).getD (k - 1) 0)
          (ds.getD k 0) (cs.getD k 0) := by
  intro path
  induction path with
  | nil => intro ds cs prob k _ _ hk; simp at hk
  | cons node rest ih =>
      intro ds cs prob k hd hc hk
      match ds, cs with
      | d :: ds', c :: cs' =>
          match k with
          | 0 => simp [computeProbabilityPathGo]
          | 1 =>
              by_cases hr : rest = []
              · subst hr; simp at hk
              · match rest, ds', cs' with
                | n2 :: rest', d2 :: ds'', c2 :: cs'' =>
                    simp [computeProbabilityPathGo]
          | (k' + 2) =>
              have hd' : ds'.length = rest.length := by simpa using hd
              have hc' : cs'.length = rest.length := by simpa using hc
              have hk' : k' + 1 < rest.length := by
                simpa [Nat.succ_lt_succ_iff] using hk
              have := ih ds' cs' (cp node.payload obs prob d c) (k' + 1) hd' hc' hk'
              simpa [computeProbabilityPathGo] using this

end ProbabilityPathLemmas

/-- C1: `computeProbabilityPath` returns a vector of length `|path| + 1`
whose head is the base probability `1/numTypes` and whose entry `j`, for
`1 ≤ j ≤ |path|`, is
`restaurant.computeProbability(path[j-1].payload, obs, p[j-1], d[j-1], α[j-1])`,
computed in root-to-deepest order (each entry is defined from the previous
one). -/
theorem computeProbabilityPath_correct (cp : ComputeProbability) (numTypes : ℕ)
    (path : WrappedNodeList) (discount_path concentration_path : d_vec)
    (obs : e_type)
    (hd : discount_path.length = path.length)
    (hc : concentration_path.length = path.length) :
    let p := computeProbabilityPath cp (1 / (numTypes : ℚ)) path
      discount_path concentration_path obs
    p.length = path.length + 1 ∧
    p.getD 0 0 = 1 / (numTypes : ℚ) ∧
    ∀ j : ℕ, 1 ≤ j → j ≤ path.length →
      p.getD j 0 =
        cp ((path.getD (j - 1) default).payload) obs
          (p.getD (j - 1) 0)
          (discount_path.getD (j - 1) 0)
          (concentration_path.getD (j - 1) 0) := by
  intro p
  refine ⟨?_, ?_, ?_⟩
  · show (_ :: _).length = _
    rw [List.length_cons,
        computeProbabilityPathGo_length cp obs path _ _ _ hd hc]
  · rfl
  · intro j hj1 hjlen
    obtain ⟨k, rfl⟩ : ∃ k, j = k + 1 := ⟨j - 1, (Nat.succ_pred_eq_of_pos hj1).symm⟩
    have hk : k < path.length := by omega
    have step := computeProbabilityPathGo_getD cp obs path discount_path
      concentration_path (1 / (numTypes : ℚ)) k hd hc hk
    show List.getD (computeProbabilityPathGo cp obs path discount_path
        concentration_path (1 / (numTypes : ℚ))) k 0 =
      cp ((path.getD k default).payload) obs
        (List.getD (computeProbabilityPath cp (1 / (numTypes : ℚ)) path
          discount_path concentration_path obs) k 0)
        (discount_path.getD k 0) (concentration_path.getD k 0)
    rw [step]
    cases k with
    | zero => rfl
    | succ k' => rfl

/-- Witness for C1 on a concrete one-node path with a concrete restaurant
kernel. -/
theorem computeProbabilityPath_correct_witness :
    (([(17 : ℚ)] : d_vec).length = ([⟨0, 1, 5⟩] : WrappedNodeList).length) ∧
    (([(3 : ℚ)] : d_vec).length = ([⟨0, 1, 5⟩] : WrappedNodeList).length) ∧
    (let p := computeProbabilityPath (fun _ _ prob d c => prob * d + c)
        (1 / (2 : ℚ)) [⟨0, 1, 5⟩] [(17 : ℚ)] [(3 : ℚ)] 0
     p.length = ([⟨0, 1, 5⟩] : WrappedNodeList).length + 1 ∧
     p.getD 0 0 = 1 / (2 : ℚ) ∧
     ∀ j : ℕ, 1 ≤ j → j ≤ ([⟨0, 1, 5⟩] : WrappedNodeList).length →
       p.getD j 0 =
         (fun (_ : ℕ) (_ : e_type) (prob d c : ℚ) => prob * d + c)
           ((([⟨0, 1, 5⟩] : WrappedNodeList).getD (j - 1) default).payload) 0
           (p.getD (j - 1) 0)
           (([(17 : ℚ)] : d_vec).getD (j - 1) 0)
           (([(3 : ℚ)] : d_vec).getD (j - 1) 0)) :=
  ⟨rfl, rfl,
    computeProbabilityPath_correct (fun _ _ prob d c => prob * d + c) 2
      [⟨0, 1, 5⟩] [(17 : ℚ)] [(3 : ℚ)] 0 rfl rfl⟩

section UpdatePathLemmas

variable {σ : Type} (ac : AddCustomer σ) (obs : e_type)

lemma seatFrom_append (path : WrappedNodeList) (p d c : d_vec)
    (z : WrappedNode) (pz dz cz : ℚ)
    (hp : p.length = path.length) (hd : d.length = path.length)
    (hc : c.length = path.length) :
    ∀ (j : ℕ), j < path.length → ∀ (w : ℚ) (s : σ),
      seatFrom ac obs (path ++ [z]) (p ++ [pz]) (d ++ [dz]) (c ++ [cz]) j w s =
        seatFrom ac obs path p d c j w s := by
  intro j
  induction j with
  | zero =>
      intro hj w s
      simp only [seatFrom]
      rw [List.getD_append _ _ _ _ hj, List.getD_append _ _ _ _ (hp ▸ hj),
        List.getD_append _ _ _ _ (hd ▸ hj), List.getD_append _ _ _ _ (hc ▸ hj)]
  | succ j' ih =>
      intro hj w s
      simp only [seatFrom]
      rw [List.getD_append _ _ _ _ hj, List.getD_append _ _ _ _ (hp ▸ hj),
        List.getD_append _ _ _ _ (hd ▸ hj), List.getD_append _ _ _ _ (hc ▸ hj)]
      split
      · rfl
      · exact ih (Nat.lt_of_succ_lt hj) _ _

lemma updatePathGo_eq_seatFrom :
    ∀ (r : WrappedNodeList) (pr dr cr : d_vec) (w : ℚ) (s : σ),
      pr.length = r.length → dr.length = r.length → cr.length = r.length →
      r ≠ [] →
      updatePathGo ac obs r pr dr cr w s =
        seatFrom ac obs r.reverse pr.reverse dr.reverse cr.reverse
          (r.length - 1) w s := by
  intro r
  induction r with
  | nil => intro _ _ _ _ _ _ _ _ hne; exact absurd rfl hne
  | cons n r' ih =>
      intro pr dr cr w s hp hd hc _
      match pr, dr, cr with
      | pn :: pr', dn :: dr', cn :: cr' =>
        have hp' : pr'.length = r'.length := by simpa using hp
        have hd' : dr'.length = r'.length := by simpa using hd
        have hc' : cr'.length = r'.length := by simpa using hc
        have hgetn :
            ((r'.reverse ++ [n]).getD r'.length default) = n := by
          rw [List.getD_append_right _ _ _ _ (by simp)]
          simp
        have hgetp :
            ((pr'.reverse ++ [pn]).getD r'.length 0) = pn := by
          rw [List.getD_append_right _ _ _ _ (by simp [hp'])]
          simp [hp']
        have hgetd :
            ((dr'.reverse ++ [dn]).getD r'.length 0) = dn := by
          rw [List.getD_append_right _ _ _ _ (by simp [hd'])]
          simp [hd']
        have hgetc :
            ((cr'.reverse ++ [cn]).getD r'.length 0) = cn := by
          rw [List.getD_append_right _ _ _ _ (by simp [hc'])]
          simp [hc']
        have hlen1 : (n :: r').length - 1 = r'.length := by simp
        simp only [List.reverse_cons]
        show (if (ac s n.payload obs pn dn cn w).2 = 0
            then (ac s n.payload obs pn dn cn w).1
            else updatePathGo ac obs r' pr' dr' cr'
              (ac s n.payload obs pn dn cn w).2
              (ac s n.payload obs pn dn cn w).1) =
          seatFrom ac obs (r'.reverse ++ [n]) (pr'.reverse ++ [pn])
            (dr'.reverse ++ [dn]) (cr'.reverse ++ [cn]) ((n :: r').length - 1) w s
        rw [hlen1]
        rcases Decidable.em (r' = []) with hr' | hr'
        · subst hr'
          match pr', dr', cr' with
          | [], [], [] =>
            show _ = seatFrom ac obs [n] [pn] [dn] [cn] 0 w s
            simp only [seatFrom, updatePathGo]
            split
            · rfl
            · rfl
        · have hlen' : r'.length ≠ 0 := fun h => hr' (List.eq_nil_of_length_eq_zero h)
          obtain ⟨m, hm⟩ : ∃ m, r'.length = m + 1 :=
            ⟨r'.length - 1, (Nat.succ_pred_eq_of_pos (Nat.pos_of_ne_zero hlen')).symm⟩
          have hseat : seatFrom ac obs (r'.reverse ++ [n]) (pr'.reverse ++ [pn])
              (dr'.reverse ++ [dn]) (cr'.reverse ++ [cn]) r'.length w s =
            (if (ac s ((r'.reverse ++ [n]).getD r'.length default).payload obs
                  ((pr'.reverse ++ [pn]).getD r'.length 0)
                  ((dr'.reverse ++ [dn]).getD r'.length 0)
                  ((cr'.reverse ++ [cn]).getD r'.length 0) w).2 = 0
            then (ac s ((r'.reverse ++ [n]).getD r'.length default).payload obs
                  ((pr'.reverse ++ [pn]).getD r'.length 0)
                  ((dr'.reverse ++ [dn]).getD r'.length 0)
                  ((cr'.reverse ++ [cn]).getD r'.length 0) w).1
            else seatFrom ac obs (r'.reverse ++ [n]) (pr'.reverse ++ [pn])
                  (dr'.reverse ++ [dn]) (cr'.reverse ++ [cn]) m
                  (ac s ((r'.reverse ++ [n]).getD r'.length default).payload obs
                    ((pr'.reverse ++ [pn]).getD r'.length 0)
                    ((dr'.reverse ++ [dn]).getD r'.length 0)
                    ((cr'.reverse ++ [cn]).getD r'.length 0) w).2
                  (ac s ((r'.reverse ++ [n]).getD r'.length default).payload obs
                    ((pr'.reverse ++ [pn]).getD r'.length 0)
                    ((dr'.reverse ++ [dn]).getD r'.length 0)
                    ((cr'.reverse ++ [cn]).getD r'.length 0) w).1) := by
            rw [hm]
            rfl
          rw [hseat, hgetn, hgetp, hgetd, hgetc]
          split
          · rfl
          · rw [ih pr' dr' cr' _ _ hp' hd' hc' hr']
            rw [seatFrom_append ac obs r'.reverse pr'.reverse dr'.reverse
              cr'.reverse n pn dn cn
              (by rw [List.length_reverse, List.length_reverse, hp'])
              (by rw [List.length_reverse, List.length_reverse, hd'])
              (by rw [List.length_reverse, List.length_reverse, hc'])
              m (by rw [List.length_reverse]; omega) _ _]
            have hm' : r'.length - 1 = m := by omega
            rw [hm']

lemma getD_take (l : List ℚ) (n j : ℕ) (hj : j < n) :
    (l.take n).getD j 0 = l.getD j 0 := by
  rcases Nat.lt_or_ge j l.length with hl | hl
  · rw [List.getD_eq_getElem _ _ (by simp; omega), List.getD_eq_getElem _ _ hl]
    simp [List.getElem_take]
  · rw [List.getD_eq_default _ _ (by simp; omega), List.getD_eq_default _ _ hl]

lemma seatFrom_congr_p (path : WrappedNodeList) (p p' d c : d_vec)
    (hagree : ∀ j < path.length, p.getD j 0 = p'.getD j 0) :
    ∀ (j : ℕ), j < path.length → ∀ (w : ℚ) (s : σ),
      seatFrom ac obs path p d c j w s = seatFrom ac obs path p' d c j w s := by
  intro j
  induction j with
  | zero => intro hj w s; simp only [seatFrom]; rw [hagree 0 hj]
  | succ j' ih =>
      intro hj w s
      simp only [seatFrom]
      rw [hagree (j' + 1) hj]
      split
      · rfl
      · exact ih (Nat.lt_of_succ_lt hj) _ _

end UpdatePathLemmas

/-- C2: on a non-empty path with aligned vectors, `updatePath` seats one
observation by walking the nodes from deepest to root: it calls
`addCustomer` at node `j` (counting from the root, starting at
`j = path.length - 1`) with the probability-path entry `p[j]` at the
node's own index, chains the returned new-table fraction as the next
customer weight, starts with weight `1`, and stops as soon as the
fraction is `0`.  This is stated as equality with `seatFrom`, the
index-based deepest-to-root recursion transcribed from the claim. -/
theorem updatePath_correct {σ : Type} (ac : AddCustomer σ) (obs : e_type)
    (path : WrappedNodeList) (prob_path discount_path concentration_path : d_vec)
    (s : σ)
    (hne : path ≠ [])
    (hp : prob_path.length = path.length + 1)
    (hd : discount_path.length = path.length)
    (hc : concentration_path.length = path.length) :
    updatePath ac obs path prob_path discount_path concentration_path s =
      seatFrom ac obs path prob_path discount_path concentration_path
        (path.length - 1) 1 s := by
  have hlen : (path.reverse).length = path.length := List.length_reverse path
  have hne' : path.reverse ≠ [] := by
    intro h
    exact hne (by simpa using congrArg List.reverse h)
  have htake : (prob_path.take path.length).length = path.length := by
    rw [List.length_take]; omega
  have := updatePathGo_eq_seatFrom ac obs path.reverse
    ((prob_path.take path.length).reverse) discount_path.reverse
    concentration_path.reverse 1 s
    (by rw [List.length_reverse, List.length_reverse, htake])
    (by rw [List.length_reverse, List.length_reverse, hd])
    (by rw [List.length_reverse, List.length_reverse, hc])
    hne'
  unfold updatePath
  rw [this]
  simp only [List.reverse_reverse, hlen]
  have hpos : 0 < path.length := List.length_pos.mpr hne
  exact seatFrom_congr_p ac obs path (prob_path.take path.length) prob_path
    discount_path concentration_path
    (fun j hj => getD_take prob_path path.length j hj)
    (path.length - 1) (by omega) 1 s

/-- Witness for C2 on a concrete two-node path. -/
theorem updatePath_correct_witness :
    (([⟨0, 1, 1⟩, ⟨0, 2, 2⟩] : WrappedNodeList) ≠ []) ∧
    (([(1 : ℚ) / 2, 1 / 3, 1 / 4] : d_vec).length =
      ([⟨0, 1, 1⟩, ⟨0, 2, 2⟩] : WrappedNodeList).length + 1) ∧
    (([(1 : ℚ) / 2, 1 / 2] : d_vec).length =
      ([⟨0, 1, 1⟩, ⟨0, 2, 2⟩] : WrappedNodeList).length) ∧
    (([(0 : ℚ), 1] : d_vec).length =
      ([⟨0, 1, 1⟩, ⟨0, 2, 2⟩] : WrappedNodeList).length) ∧
    updatePath (σ := List (ℕ × ℚ))
        (fun s pay _ p _ _ w => ((pay, p) :: s, w * p)) 0
        [⟨0, 1, 1⟩, ⟨0, 2, 2⟩] [(1 : ℚ) / 2, 1 / 3, 1 / 4]
        [(1 : ℚ) / 2, 1 / 2] [(0 : ℚ), 1] [] =
      seatFrom (σ := List (ℕ × ℚ))
        (fun s pay _ p _ _ w => ((pay, p) :: s, w * p)) 0
        [⟨0, 1, 1⟩, ⟨0, 2, 2⟩] [(1 : ℚ) / 2, 1 / 3, 1 / 4]
        [(1 : ℚ) / 2, 1 / 2] [(0 : ℚ), 1]
        (([⟨0, 1, 1⟩, ⟨0, 2, 2⟩] : WrappedNodeList).length - 1) 1 [] :=
  ⟨by decide, rfl, rfl, rfl,
    updatePath_correct (fun s pay _ p _ _ w => ((pay, p) :: s, w * p)) 0
      [⟨0, 1, 1⟩, ⟨0, 2, 2⟩] [(1 : ℚ) / 2, 1 / 3, 1 / 4]
      [(1 : ℚ) / 2, 1 / 2] [(0 : ℚ), 1] [] (by decide) rfl rfl rfl⟩

/-- C9: `removeObservation` evaluates
`assert(path.back().end == (*cached_path).back().end)` outside of the
`cached_path != NULL` branch, so every call with `cached_path == NULL`
dereferences the null pointer (modelled as the undefined-behaviour result
`none`), for every choice of collaborators and state; and whenever a cached
path is supplied the assertion compares the cached path with itself, always
passes, and the removal proceeds. -/
theorem removeObservation_null_deref {σ α : Type} (rc : RemoveCustomer σ α)
    (findLongestSuffix : l_type → l_type → WrappedNodeList)
    (getDiscounts : WrappedNodeList → d_vec)
    (start stop : l_type) (obs : e_type) (payloadDataPath : List α) (s : σ) :
    removeObservation rc findLongestSuffix getDiscounts start stop obs
      payloadDataPath none s = none ∧
    ∀ cached : WrappedNodeList,
      removeObservation rc findLongestSuffix getDiscounts start stop obs
        payloadDataPath (some cached) s =
      some (removeObservationFromPath rc cached (getDiscounts cached) obs
        payloadDataPath s) := by
  constructor
  · rfl
  · intro cached
    simp [removeObservation]

section ComputeLossesLemmas

variable {σ : Type} (icao : σ → l_type → l_type → e_type → σ × d_vec)
  (log2Q : ℚ → ℚ) (seq : l_type → e_type) (start : l_type)

lemma computeLossesLoop_correct :
    ∀ (k : ℕ) (i0 : l_type) (s0 : σ),
      (computeLossesLoop icao log2Q seq start k i0 s0).1.length = k ∧
      (computeLossesLoop icao log2Q seq start k i0 s0).2 =
        icaoStateFrom icao seq start k i0 s0 ∧
      ∀ m : ℕ, m < k →
        (computeLossesLoop icao log2Q seq start k i0 s0).1.getD m 0 =
          -log2Q ((icaoPPAt icao seq start i0 s0 m).getD
            ((icaoPPAt icao seq start i0 s0 m).length - 2) 0) := by
  intro k
  induction k with
  | zero =>
      intro i0 s0
      refine ⟨rfl, rfl, ?_⟩
      intro m hm; omega
  | succ k' ih =>
      intro i0 s0
      obtain ⟨ihlen, ihstate, ihget⟩ := ih (i0 + 1) (icao s0 start i0 (seq i0)).1
      refine ⟨?_, ?_, ?_⟩
      · simp only [computeLossesLoop, List.length_cons, ihlen]
      · simp only [computeLossesLoop]
        exact ihstate
      · intro m hm
        match m with
        | 0 =>
            show -log2Q _ = _
            have : icaoPPAt icao seq start i0 s0 0 =
                (icao s0 start i0 (seq i0)).2 := by
              simp [icaoPPAt, icaoStateFrom]
            rw [this]
        | m' + 1 =>
            show (computeLossesLoop icao log2Q seq start k' (i0 + 1)
              (icao s0 start i0 (seq i0)).1).1.getD m' 0 = _
            rw [ihget m' (by omega)]
            have hpp : icaoPPAt icao seq start (i0 + 1)
                (icao s0 start i0 (seq i0)).1 m' =
                icaoPPAt icao seq start i0 s0 (m' + 1) := by
              simp only [icaoPPAt, icaoStateFrom]
              have : i0 + 1 + (m' : l_type) = i0 + ((m' : ℕ) + 1 : ℕ) := by
                push_cast; ring
              rw [this]
            rw [hpp]

end ComputeLossesLemmas

/-- C6: `computeLosses(start, stop)` records `losses[0] = log2(numTypes)`,
seats the first symbol `seq[start]` through `insertRoot` (which updates
only the path returned by `findLongestSuffix(0,0)`, the root-only path),
and for each of the `(stop - (start+1))` subsequent positions the recorded
loss is `-log2` of the second-to-last entry `p[|p|-2]` of the probability
path returned by `insertContextAndObservation(start, i, seq[i])` — not of
the last entry. -/
theorem computeLosses_correct {σ : Type} (cp : ComputeProbability)
    (ac : AddCustomer σ)
    (findLongestSuffix : l_type → l_type → WrappedNodeList)
    (getDiscounts : WrappedNodeList → d_vec)
    (getConcentrations : WrappedNodeList → d_vec → d_vec)
    (icao : σ → l_type → l_type → e_type → σ × d_vec)
    (log2Q : ℚ → ℚ) (seq : l_type → e_type) (baseProb : ℚ) (numTypes : ℕ)
    (start stop : l_type) (s : σ) :
    let s1 := insertRoot cp ac findLongestSuffix getDiscounts getConcentrations
      baseProb s (seq start)
    let n := (stop - (start + 1)).toNat
    let out := computeLosses cp ac findLongestSuffix getDiscounts
      getConcentrations icao log2Q seq baseProb numTypes start stop s
    out.1.length = n + 1 ∧
    out.1.getD 0 0 = log2Q (numTypes : ℚ) ∧
    out.2 = icaoStateFrom icao seq start n (start + 1) s1 ∧
    ∀ m : ℕ, m < n →
      out.1.getD (m + 1) 0 =
        -log2Q ((icaoPPAt icao seq start (start + 1) s1 m).getD
          ((icaoPPAt icao seq start (start + 1) s1 m).length - 2) 0) := by
  intro s1 n out
  obtain ⟨hlen, hstate, hget⟩ :=
    computeLossesLoop_correct icao log2Q seq start n (start + 1) s1
  refine ⟨?_, rfl, hstate, ?_⟩
  · show (_ :: _).length = n + 1
    rw [List.length_cons, hlen]
  · intro m hm
    show (computeLossesLoop icao log2Q seq start n (start + 1) s1).1.getD m 0 = _
    exact hget m hm

/-- Witness for C6 at a concrete instantiation of the collaborators. -/
theorem computeLosses_correct_witness :
    let icao : Unit → l_type → l_type → e_type → Unit × d_vec :=
      fun s _ _ _ => (s, [1, 1 / 2, 1 / 4])
    let s1 := insertRoot (σ := Unit) (fun _ _ p _ _ => p)
      (fun s _ _ _ _ _ _ => (s, 0)) (fun _ _ => []) (fun _ => [])
      (fun _ _ => []) (1 / 2) () 0
    let n := ((3 : l_type) - (0 + 1)).toNat
    let out := computeLosses (σ := Unit) (fun _ _ p _ _ => p)
      (fun s _ _ _ _ _ _ => (s, 0)) (fun _ _ => []) (fun _ => [])
      (fun _ _ => []) icao (fun q => q) (fun _ => 0) (1 / 2) 2 0 3 ()
    out.1.length = n + 1 ∧
    out.1.getD 0 0 = ((2 : ℕ) : ℚ) ∧
    out.2 = icaoStateFrom icao (fun _ => 0) 0 n (0 + 1) s1 ∧
    ∀ m : ℕ, m < n →
      out.1.getD (m + 1) 0 =
        -((icaoPPAt icao (fun _ => 0) 0 (0 + 1) s1 m).getD
          ((icaoPPAt icao (fun _ => 0) 0 (0 + 1) s1 m).length - 2) 0) :=
  computeLosses_correct (σ := Unit) (fun _ _ p _ _ => p)
    (fun s _ _ _ _ _ _ => (s, 0)) (fun _ _ => []) (fun _ => [])
    (fun _ _ => []) (fun s _ _ _ => (s, [1, 1 / 2, 1 / 4])) (fun q => q)
    (fun _ => 0) (1 / 2) 2 0 3 ()

/-- C7: when the virtual longest-suffix lookup reports no fragmentation
(`fragmentLen = 0`), `predictWithFragmentation` returns exactly
`predictBelow`'s value; and when additionally the virtual lookup's path
coincides with the longest-suffix path (the context lies on an exact
node), ABOVE (`predict`), BELOW (`predictBelow`) and FRAGMENT
(`predictWithFragmentation`) all return the same value. -/
theorem prediction_modes_agree {R : Type} (cpR : R → e_type → ℚ → ℚ → ℚ → ℚ)
    (findLongestSuffix : l_type → l_type → WrappedNodeList)
    (findLongestSuffixVirtual : l_type → l_type → ℤ × WrappedNodeList)
    (getDiscounts : WrappedNodeList → d_vec)
    (getConcentrations : WrappedNodeList → d_vec → d_vec)
    (getDiscount : ℤ → ℤ → ℚ) (getConcentration : ℚ → ℤ → ℤ → ℚ)
    (uasNew : R → R → ℚ → ℚ → R) (emptyR : R) (baseProb : ℚ)
    (st : RestStore R) (start stop : l_type) (obs : e_type)
    (h0 : (findLongestSuffixVirtual start stop).1 = 0) :
    (predictWithFragmentation cpR findLongestSuffixVirtual getDiscounts
        getConcentrations getDiscount getConcentration uasNew emptyR baseProb
        st start stop obs).1 =
      (predictBelow cpR findLongestSuffixVirtual getDiscounts
        getConcentrations baseProb st start stop obs).1 ∧
    ((findLongestSuffixVirtual start stop).2 = findLongestSuffix start stop →
      (predict cpR findLongestSuffix getDiscounts getConcentrations baseProb
          st start stop obs).1 =
        (predictBelow cpR findLongestSuffixVirtual getDiscounts
          getConcentrations baseProb st start stop obs).1 ∧
      (predict cpR findLongestSuffix getDiscounts getConcentrations baseProb
          st start stop obs).1 =
        (predictWithFragmentation cpR findLongestSuffixVirtual getDiscounts
          getConcentrations getDiscount getConcentration uasNew emptyR
          baseProb st start stop obs).1) := by
  have hfrag :
      (predictWithFragmentation cpR findLongestSuffixVirtual getDiscounts
        getConcentrations getDiscount getConcentration uasNew emptyR baseProb
        st start stop obs).1 =
      (predictBelow cpR findLongestSuffixVirtual getDiscounts
        getConcentrations baseProb st start stop obs).1 := by
    simp [predictWithFragmentation, predictBelow, h0]
  refine ⟨hfrag, ?_⟩
  intro heq
  have habove :
      (predict cpR findLongestSuffix getDiscounts getConcentrations baseProb
        st start stop obs).1 =
      (predictBelow cpR findLongestSuffixVirtual getDiscounts
        getConcentrations baseProb st start stop obs).1 := by
    simp only [predict, predictBelow, ← heq]
  exact ⟨habove, habove.trans hfrag.symm⟩

/-- Witness for C7 on a concrete exact-node configuration. -/
theorem prediction_modes_agree_witness :
    ((fun (_ _ : l_type) => ((0 : ℤ), ([⟨0, 1, 3⟩] : WrappedNodeList))) 0 0).1
        = 0 ∧
    ((predictWithFragmentation (R := Unit) (fun _ _ p _ _ => p)
        (fun _ _ => ((0 : ℤ), [⟨0, 1, 3⟩])) (fun _ => [0]) (fun _ _ => [0])
        (fun _ _ => 0) (fun _ _ _ => 0) (fun a _ _ _ => a) () (1 / 2)
        ⟨fun _ => (), 5⟩ 0 0 0).1 =
      (predictBelow (R := Unit) (fun _ _ p _ _ => p)
        (fun _ _ => ((0 : ℤ), [⟨0, 1, 3⟩])) (fun _ => [0]) (fun _ _ => [0])
        (1 / 2) ⟨fun _ => (), 5⟩ 0 0 0).1 ∧
    (((fun (_ _ : l_type) => ((0 : ℤ), ([⟨0, 1, 3⟩] : WrappedNodeList))) 0 0).2 =
        (fun (_ _ : l_type) => ([⟨0, 1, 3⟩] : WrappedNodeList)) 0 0 →
      (predict (R := Unit) (fun _ _ p _ _ => p)
          (fun _ _ => [⟨0, 1, 3⟩]) (fun _ => [0]) (fun _ _ => [0]) (1 / 2)
          ⟨fun _ => (), 5⟩ 0 0 0).1 =
        (predictBelow (R := Unit) (fun _ _ p _ _ => p)
          (fun _ _ => ((0 : ℤ), [⟨0, 1, 3⟩])) (fun _ => [0]) (fun _ _ => [0])
          (1 / 2) ⟨fun _ => (), 5⟩ 0 0 0).1 ∧
      (predict (R := Unit) (fun _ _ p _ _ => p)
          (fun _ _ => [⟨0, 1, 3⟩]) (fun _ => [0]) (fun _ _ => [0]) (1 / 2)
          ⟨fun _ => (), 5⟩ 0 0 0).1 =
        (predictWithFragmentation (R := Unit) (fun _ _ p _ _ => p)
          (fun _ _ => ((0 : ℤ), [⟨0, 1, 3⟩])) (fun _ => [0]) (fun _ _ => [0])
          (fun _ _ => 0) (fun _ _ _ => 0) (fun a _ _ _ => a) () (1 / 2)
          ⟨fun _ => (), 5⟩ 0 0 0).1)) :=
  ⟨rfl,
    prediction_modes_agree (R := Unit) (fun _ _ p _ _ => p)
      (fun _ _ => [⟨0, 1, 3⟩]) (fun _ _ => ((0 : ℤ), [⟨0, 1, 3⟩]))
      (fun _ => [0]) (fun _ _ => [0]) (fun _ _ => 0) (fun _ _ _ => 0)
      (fun a _ _ _ => a) () (1 / 2) ⟨fun _ => (), 5⟩ 0 0 0 rfl⟩

/-- C10: the predictive queries leave the model state unchanged.
`predict`, `predictBelow`, `predictiveDistribution` and
`predictiveDistributionWithMixing` return the store exactly as given (they
only read it); `predictWithFragmentation` leaves every payload slot other
than the freshly allocated transient one untouched, leaves the transient
slot empty (it is recycled before returning), and in the no-fragmentation
case returns the store exactly as given. -/
theorem predictive_queries_frame {R : Type} (cpR : R → e_type → ℚ → ℚ → ℚ → ℚ)
    (findLongestSuffix : l_type → l_type → WrappedNodeList)
    (findLongestSuffixVirtual : l_type → l_type → ℤ × WrappedNodeList)
    (getDiscounts : WrappedNodeList → d_vec)
    (getConcentrations : WrappedNodeList → d_vec → d_vec)
    (getDiscount : ℤ → ℤ → ℚ) (getConcentration : ℚ → ℤ → ℤ → ℚ)
    (uasNew : R → R → ℚ → ℚ → R) (emptyR : R) (baseProb : ℚ)
    (numTypes : ℕ) (mixingWeights : d_vec) (st : RestStore R)
    (start stop : l_type) (obs : e_type) :
    (predict cpR findLongestSuffix getDiscounts getConcentrations baseProb
      st start stop obs).2 = st ∧
    (predictBelow cpR findLongestSuffixVirtual getDiscounts getConcentrations
      baseProb st start stop obs).2 = st ∧
    (predictiveDistribution cpR findLongestSuffix getDiscounts
      getConcentrations baseProb numTypes st start stop).2 = st ∧
    (predictiveDistributionWithMixing cpR findLongestSuffix getDiscounts
      getConcentrations baseProb numTypes mixingWeights st start stop).2 = st ∧
    (∀ p : ℕ, p ≠ st.next →
      (predictWithFragmentation cpR findLongestSuffixVirtual getDiscounts
        getConcentrations getDiscount getConcentration uasNew emptyR baseProb
        st start stop obs).2.data p = st.data p) ∧
    ((findLongestSuffixVirtual start stop).1 ≠ 0 →
      (predictWithFragmentation cpR findLongestSuffixVirtual getDiscounts
        getConcentrations getDiscount getConcentration uasNew emptyR baseProb
        st start stop obs).2.data st.next = emptyR) ∧
    ((findLongestSuffixVirtual start stop).1 = 0 →
      (predictWithFragmentation cpR findLongestSuffixVirtual getDiscounts
        getConcentrations getDiscount getConcentration uasNew emptyR baseProb
        st start stop obs).2 = st) := by
  refine ⟨rfl, rfl, rfl, rfl, ?_, ?_, ?_⟩
  · intro p hp
    by_cases hfrag : (findLongestSuffixVirtual start stop).1 = 0
    · simp [predictWithFragmentation, hfrag]
    · simp [predictWithFragmentation, hfrag, factoryMake, factoryRecycle,
        updateAfterSplitOnlyNew, hp]
  · intro hfrag
    simp [predictWithFragmentation, hfrag, factoryMake, factoryRecycle,
      updateAfterSplitOnlyNew]
  · intro hfrag
    simp [predictWithFragmentation, hfrag]

/-- Witness for C10 at a concrete fragmenting configuration. -/
theorem predictive_queries_frame_witness :
    (predict (R := ℕ) (fun r _ _ _ _ => (r : ℚ)) (fun _ _ => [⟨0, 1, 3⟩])
      (fun _ => [0]) (fun _ _ => [0]) (1 / 2) ⟨fun p => p, 5⟩ 0 0 0).2 =
      ⟨fun p => p, 5⟩ ∧
    (predictBelow (R := ℕ) (fun r _ _ _ _ => (r : ℚ))
      (fun _ _ => ((2 : ℤ), [⟨0, 1, 3⟩, ⟨0, 4, 4⟩])) (fun _ => [0])
      (fun _ _ => [0]) (1 / 2) ⟨fun p => p, 5⟩ 0 0 0).2 = ⟨fun p => p, 5⟩ ∧
    (predictiveDistribution (R := ℕ) (fun r _ _ _ _ => (r : ℚ))
      (fun _ _ => [⟨0, 1, 3⟩]) (fun _ => [0]) (fun _ _ => [0]) (1 / 2) 2
      ⟨fun p => p, 5⟩ 0 0).2 = ⟨fun p => p, 5⟩ ∧
    (predictiveDistributionWithMixing (R := ℕ) (fun r _ _ _ _ => (r : ℚ))
      (fun _ _ => [⟨0, 1, 3⟩]) (fun _ => [0]) (fun _ _ => [0]) (1 / 2) 2
      [1 / 3] ⟨fun p => p, 5⟩ 0 0).2 = ⟨fun p => p, 5⟩ ∧
    (∀ p : ℕ, p ≠ (⟨fun p => p, 5⟩ : RestStore ℕ).next →
      (predictWithFragmentation (R := ℕ) (fun r _ _ _ _ => (r : ℚ))
        (fun _ _ => ((2 : ℤ), [⟨0, 1, 3⟩, ⟨0, 4, 4⟩])) (fun _ => [0])
        (fun _ _ => [0]) (fun _ _ => 0) (fun _ _ _ => 0) (fun a b _ _ => a + b)
        0 (1 / 2) ⟨fun p => p, 5⟩ 0 0 0).2.data p =
        (⟨fun p => p, 5⟩ : RestStore ℕ).data p) ∧
    (((fun (_ _ : l_type) => ((2 : ℤ), ([⟨0, 1, 3⟩, ⟨0, 4, 4⟩] :
        WrappedNodeList))) 0 0).1 ≠ 0 →
      (predictWithFragmentation (R := ℕ) (fun r _ _ _ _ => (r : ℚ))
        (fun _ _ => ((2 : ℤ), [⟨0, 1, 3⟩, ⟨0, 4, 4⟩])) (fun _ => [0])
        (fun _ _ => [0]) (fun _ _ => 0) (fun _ _ _ => 0) (fun a b _ _ => a + b)
        0 (1 / 2) ⟨fun p => p, 5⟩ 0 0 0).2.data
        (⟨fun p => p, 5⟩ : RestStore ℕ).next = 0) ∧
    (((fun (_ _ : l_type) => ((2 : ℤ), ([⟨0, 1, 3⟩, ⟨0, 4, 4⟩] :
        WrappedNodeList))) 0 0).1 = 0 →
      (predictWithFragmentation (R := ℕ) (fun r _ _ _ _ => (r : ℚ))
        (fun _ _ => ((2 : ℤ), [⟨0, 1, 3⟩, ⟨0, 4, 4⟩])) (fun _ => [0])
        (fun _ _ => [0]) (fun _ _ => 0) (fun _ _ _ => 0) (fun a b _ _ => a + b)
        0 (1 / 2) ⟨fun p => p, 5⟩ 0 0 0).2 = ⟨fun p => p, 5⟩) :=
  predictive_queries_frame (R := ℕ) (fun r _ _ _ _ => (r : ℚ))
    (fun _ _ => [⟨0, 1, 3⟩]) (fun _ _ => ((2 : ℤ), [⟨0, 1, 3⟩, ⟨0, 4, 4⟩]))
    (fun _ => [0]) (fun _ _ => [0]) (fun _ _ => 0) (fun _ _ _ => 0)
    (fun a b _ _ => a + b) 0 (1 / 2) 2 [1 / 3] ⟨fun p => p, 5⟩ 0 0 0

section CRPRoundTrip

lemma crpUpdate_apply_self (dat : CRPData) (pay : ℕ) (y : e_type) (t : Tables) :
    crpUpdate dat pay y t pay y = t := by simp [crpUpdate]

lemma crpUpdate_apply_ne (dat : CRPData) (pay : ℕ) (y : e_type) (t : Tables)
    (p : ℕ) (y' : e_type) (h : ¬(p = pay ∧ y' = y)) :
    crpUpdate dat pay y t p y' = dat p y' := by simp [crpUpdate, h]

lemma crpUpdate_self (dat : CRPData) (pay : ℕ) (y : e_type) :
    crpUpdate dat pay y (dat pay y) = dat := by
  funext p y'
  by_cases h : p = pay ∧ y' = y
  · obtain ⟨rfl, rfl⟩ := h; simp [crpUpdate]
  · simp [crpUpdate, h]

lemma crpUpdate_crpUpdate (dat : CRPData) (pay : ℕ) (y : e_type)
    (a b : Tables) :
    crpUpdate (crpUpdate dat pay y a) pay y b = crpUpdate dat pay y b := by
  funext p y'
  by_cases h : p = pay ∧ y' = y <;> simp [crpUpdate, h]

lemma crpUpdate_comm (dat : CRPData) (k pay : ℕ) (y : e_type)
    (t u : Tables) (hk : k ≠ pay) :
    crpUpdate (crpUpdate dat k y t) pay y u =
      crpUpdate (crpUpdate dat pay y u) k y t := by
  funext p y'
  by_cases h1 : p = pay ∧ y' = y
  · obtain ⟨rfl, rfl⟩ := h1
    simp [crpUpdate, hk.symm]
  · by_cases h2 : p = k ∧ y' = y <;> simp [crpUpdate, h1, h2, hk]

lemma crp_set_get_self :
    ∀ (l : Tables) (i : ℕ) (h : i < l.length), l.set i (l.get ⟨i, h⟩) = l := by
  intro l
  induction l with
  | nil => intro i h; simp at h
  | cons a l ih =>
      intro i h
      cases i with
      | zero => simp
      | succ i' => simpa using ih i' (by simpa using h)

lemma crp_eraseIdx_append (l : Tables) (x : ℕ) :
    (l ++ [x]).eraseIdx l.length = l := by
  induction l with
  | nil => rfl
  | cons a l ih => simpa [List.eraseIdx] using ih

lemma updatePathGo_crp_frame (obs : e_type) :
    ∀ (rl : WrappedNodeList) (pr dr cr : d_vec) (w : ℚ) (dat : CRPData)
      (cs : List ℕ) (k : ℕ) (y' : e_type),
      k ∉ rl.map WrappedNode.payload →
      (updatePathGo crpAddCustomer obs rl pr dr cr w (dat, cs)).1 k y' =
        dat k y' := by
  intro rl
  induction rl with
  | nil => intro pr dr cr w dat cs k y' _; rfl
  | cons n rl' ih =>
      intro pr dr cr w dat cs k y' hk
      have hkne : k ≠ n.payload := by
        intro h; exact hk (by simp [h])
      have hk' : k ∉ rl'.map WrappedNode.payload := by
        intro h; exact hk (by simp [h])
      match pr, dr, cr with
      | [], _, _ => rfl
      | _ :: _, [], _ => rfl
      | _ :: _, _ :: _, [] => rfl
      | pn :: pr', dn :: dr', cn :: cr' =>
          show (if (crpSeat (dat n.payload obs) (cs.headD 0)).2 = 0
            then ((crpUpdate dat n.payload obs
              (crpSeat (dat n.payload obs) (cs.headD 0)).1, cs.tail) : CRPState)
            else updatePathGo crpAddCustomer obs rl' pr' dr' cr'
              (crpSeat (dat n.payload obs) (cs.headD 0)).2
              (crpUpdate dat n.payload obs
                (crpSeat (dat n.payload obs) (cs.headD 0)).1, cs.tail)).1 k y' =
            dat k y'
          split
          · exact crpUpdate_apply_ne _ _ _ _ _ _ (by simp [hkne])
          · rw [ih pr' dr' cr' _ _ _ k y' hk']
            exact crpUpdate_apply_ne _ _ _ _ _ _ (by simp [hkne])

lemma updatePathGo_crp_commute (obs : e_type) :
    ∀ (rl : WrappedNodeList) (pr dr cr : d_vec) (w : ℚ) (dat : CRPData)
      (cs : List ℕ) (k : ℕ) (t : Tables),
      k ∉ rl.map WrappedNode.payload →
      updatePathGo crpAddCustomer obs rl pr dr cr w (crpUpdate dat k obs t, cs) =
        (crpUpdate
            (updatePathGo crpAddCustomer obs rl pr dr cr w (dat, cs)).1
            k obs t,
         (updatePathGo crpAddCustomer obs rl pr dr cr w (dat, cs)).2) := by
  intro rl
  induction rl with
  | nil => intro pr dr cr w dat cs k t _; rfl
  | cons n rl' ih =>
      intro pr dr cr w dat cs k t hk
      have hkne : k ≠ n.payload := by
        intro h; exact hk (by simp [h])
      have hk' : k ∉ rl'.map WrappedNode.payload := by
        intro h; exact hk (by simp [h])
      match pr, dr, cr with
      | [], _, _ => rfl
      | _ :: _, [], _ => rfl
      | _ :: _, _ :: _, [] => rfl
      | pn :: pr', dn :: dr', cn :: cr' =>
          have hTread : crpUpdate dat k obs t n.payload obs = dat n.payload obs :=
            crpUpdate_apply_ne _ _ _ _ _ _ (by simp [hkne.symm])
          simp only [updatePathGo, crpAddCustomer, hTread]
          split
          · rw [crpUpdate_comm dat k n.payload obs t _ hkne]
          · rw [crpUpdate_comm dat k n.payload obs t _ hkne]
            exact ih pr' dr' cr' _ _ _ k t hk'

lemma crp_undo (obs : e_type) :
    ∀ (rl : WrappedNodeList) (pr dr cr : d_vec) (pds : List (Option Unit))
      (dat : CRPData) (cs : List ℕ) (w : ℚ),
      pr.length = rl.length → dr.length = rl.length → cr.length = rl.length →
      pds.length = rl.length →
      (rl.map WrappedNode.payload).Nodup → CRPValid dat →
      ∃ rcs : List ℕ,
        (removeObservationFromPathGo crpRemoveCustomer obs rl dr pds 1
          ((updatePathGo crpAddCustomer obs rl pr dr cr w (dat, cs)).1,
            rcs)).1 = dat := by
  intro rl
  induction rl with
  | nil =>
      intro pr dr cr pds dat cs w _ _ _ _ _ _
      exact ⟨[], rfl⟩
  | cons n rl' ih =>
      intro pr dr cr pds dat cs w hp hd hc hpds hnodup hvalid
      match pr, dr, cr, pds with
      | pn :: pr', dn :: dr', cn :: cr', pd :: pds' =>
        have hp' : pr'.length = rl'.length := by simpa using hp
        have hd' : dr'.length = rl'.length := by simpa using hd
        have hc' : cr'.length = rl'.length := by simpa using hc
        have hpds' : pds'.length = rl'.length := by simpa using hpds
        have hnotin : n.payload ∉ rl'.map WrappedNode.payload := by
          have := hnodup
          rw [List.map_cons, List.nodup_cons] at this
          exact this.1
        have hnodup' : (rl'.map WrappedNode.payload).Nodup := by
          have := hnodup
          rw [List.map_cons, List.nodup_cons] at this
          exact this.2
        set T := dat n.payload obs with hT
        set ch := cs.headD 0 with hch
        by_cases hlt : ch < T.length
        · -- the customer sits at an existing table: the insert walk stops
          have hseat : crpSeat T ch = (T.set ch (T.get ⟨ch, hlt⟩ + 1), 0) := by
            simp [crpSeat, hlt]
          have hins : updatePathGo crpAddCustomer obs (n :: rl') (pn :: pr')
              (dn :: dr') (cn :: cr') w (dat, cs) =
            ((crpUpdate dat n.payload obs (T.set ch (T.get ⟨ch, hlt⟩ + 1)),
              cs.tail) : CRPState) := by
            show (if (crpSeat (dat n.payload obs) (cs.headD 0)).2 = 0
              then ((crpUpdate dat n.payload obs
                (crpSeat (dat n.payload obs) (cs.headD 0)).1, cs.tail) : CRPState)
              else updatePathGo crpAddCustomer obs rl' pr' dr' cr'
                (crpSeat (dat n.payload obs) (cs.headD 0)).2
                (crpUpdate dat n.payload obs
                  (crpSeat (dat n.payload obs) (cs.headD 0)).1, cs.tail)) = _
            rw [← hT, ← hch, hseat]
            norm_num
          have hread : crpUpdate dat n.payload obs
              (T.set ch (T.get ⟨ch, hlt⟩ + 1)) n.payload obs =
            T.set ch (T.get ⟨ch, hlt⟩ + 1) := crpUpdate_apply_self _ _ _ _
          have hlt2 : ch < (T.set ch (T.get ⟨ch, hlt⟩ + 1)).length := by
            simpa using hlt
          have hocc : (T.set ch (T.get ⟨ch, hlt⟩ + 1)).get ⟨ch, hlt2⟩ =
              T.get ⟨ch, hlt⟩ + 1 := by
            simp [List.get_set_eq]
          have hge : 1 ≤ T.get ⟨ch, hlt⟩ := by
            have hmem : T.get ⟨ch, hlt⟩ ∈ T := by
              rw [List.get_eq_getElem]
              exact List.getElem_mem _
            exact hvalid n.payload obs _ hmem
          have hunseat : crpUnseat (T.set ch (T.get ⟨ch, hlt⟩ + 1)) ch =
              (T, 0) := by
            rw [crpUnseat, dif_pos hlt2]
            rw [if_neg (by rw [hocc]; omega)]
            rw [hocc]
            have : T.get ⟨ch, hlt⟩ + 1 - 1 = T.get ⟨ch, hlt⟩ := by omega
            rw [this, List.set_set, crp_set_get_self]
          have hstep : removeObservationFromPathGo crpRemoveCustomer obs
              (n :: rl') (dn :: dr') (pd :: pds') 1
              (crpUpdate dat n.payload obs (T.set ch (T.get ⟨ch, hlt⟩ + 1)),
                [ch]) =
            ((crpUpdate (crpUpdate dat n.payload obs
                (T.set ch (T.get ⟨ch, hlt⟩ + 1))) n.payload obs T,
              ([] : List ℕ)) : CRPState) := by
            show (if (crpUnseat (crpUpdate dat n.payload obs
                (T.set ch (T.get ⟨ch, hlt⟩ + 1)) n.payload obs)
                (([ch] : List ℕ).headD 0)).2 = 0
              then ((crpUpdate (crpUpdate dat n.payload obs
                  (T.set ch (T.get ⟨ch, hlt⟩ + 1))) n.payload obs
                  (crpUnseat (crpUpdate dat n.payload obs
                    (T.set ch (T.get ⟨ch, hlt⟩ + 1)) n.payload obs)
                    (([ch] : List ℕ).headD 0)).1,
                ([ch] : List ℕ).tail) : CRPState)
              else removeObservationFromPathGo crpRemoveCustomer obs rl' dr' pds'
                (crpUnseat (crpUpdate dat n.payload obs
                  (T.set ch (T.get ⟨ch, hlt⟩ + 1)) n.payload obs)
                  (([ch] : List ℕ).headD 0)).2
                (crpUpdate (crpUpdate dat n.payload obs
                  (T.set ch (T.get ⟨ch, hlt⟩ + 1))) n.payload obs
                  (crpUnseat (crpUpdate dat n.payload obs
                    (T.set ch (T.get ⟨ch, hlt⟩ + 1)) n.payload obs)
                    (([ch] : List ℕ).headD 0)).1,
                ([ch] : List ℕ).tail)) = _
            simp only [List.headD_cons, List.tail_cons]
            rw [hread, hunseat]
            norm_num
          refine ⟨[ch], ?_⟩
          rw [hins]
          calc (removeObservationFromPathGo crpRemoveCustomer obs (n :: rl')
                (dn :: dr') (pd :: pds') 1
                (crpUpdate dat n.payload obs (T.set ch (T.get ⟨ch, hlt⟩ + 1)),
                  [ch])).1
              = ((crpUpdate (crpUpdate dat n.payload obs
                  (T.set ch (T.get ⟨ch, hlt⟩ + 1))) n.payload obs T,
                ([] : List ℕ)) : CRPState).1 := by rw [hstep]
            _ = dat := by
                show crpUpdate (crpUpdate dat n.payload obs
                  (T.set ch (T.get ⟨ch, hlt⟩ + 1))) n.payload obs T = dat
                rw [crpUpdate_crpUpdate, hT]
                exact crpUpdate_self dat n.payload obs
        · -- a new table is opened: the insert walk continues upward
          have hseat : crpSeat T ch = (T ++ [1], 1) := by
            simp [crpSeat, hlt]
          have hins : updatePathGo crpAddCustomer obs (n :: rl') (pn :: pr')
              (dn :: dr') (cn :: cr') w (dat, cs) =
            updatePathGo crpAddCustomer obs rl' pr' dr' cr' 1
              (crpUpdate dat n.payload obs (T ++ [1]), cs.tail) := by
            show (if (crpSeat (dat n.payload obs) (cs.headD 0)).2 = 0
              then ((crpUpdate dat n.payload obs
                (crpSeat (dat n.payload obs) (cs.headD 0)).1, cs.tail) : CRPState)
              else updatePathGo crpAddCustomer obs rl' pr' dr' cr'
                (crpSeat (dat n.payload obs) (cs.headD 0)).2
                (crpUpdate dat n.payload obs
                  (crpSeat (dat n.payload obs) (cs.headD 0)).1, cs.tail)) = _
            rw [← hT, ← hch, hseat]
            norm_num
          obtain ⟨rcs', hrcs'⟩ := ih pr' dr' cr' pds' dat cs.tail 1
            hp' hd' hc' hpds' hnodup' hvalid
          refine ⟨T.length :: rcs', ?_⟩
          rw [hins]
          rw [updatePathGo_crp_commute obs rl' pr' dr' cr' 1 dat cs.tail
            n.payload (T ++ [1]) hnotin]
          set I1 := (updatePathGo crpAddCustomer obs rl' pr' dr' cr' 1
            (dat, cs.tail)).1 with hI1
          have hIT : I1 n.payload obs = T := by
            rw [hI1]
            rw [updatePathGo_crp_frame obs rl' pr' dr' cr' 1 dat cs.tail
              n.payload obs hnotin]
          have hread : crpUpdate I1 n.payload obs (T ++ [1]) n.payload obs =
            T ++ [1] := crpUpdate_apply_self _ _ _ _
          have hlt2 : T.length < (T ++ [1]).length := by simp
          have hocc : (T ++ [1]).get ⟨T.length, hlt2⟩ = 1 := by
            rw [List.get_eq_getElem]
            simp
          have hunseat : crpUnseat (T ++ [1]) T.length = (T, 1) := by
            rw [crpUnseat, dif_pos hlt2, if_pos (by rw [hocc])]
            rw [crp_eraseIdx_append]
          have hstate : crpUpdate (crpUpdate I1 n.payload obs (T ++ [1]))
              n.payload obs T = I1 := by
            rw [crpUpdate_crpUpdate, ← hIT]
            exact crpUpdate_self I1 n.payload obs
          have hstep : removeObservationFromPathGo crpRemoveCustomer obs
              (n :: rl') (dn :: dr') (pd :: pds') 1
              (crpUpdate I1 n.payload obs (T ++ [1]), T.length :: rcs') =
            removeObservationFromPathGo crpRemoveCustomer obs rl' dr' pds' 1
              (I1, rcs') := by
            show (if (crpUnseat (crpUpdate I1 n.payload obs (T ++ [1])
                n.payload obs) ((T.length :: rcs').headD 0)).2 = 0
              then ((crpUpdate (crpUpdate I1 n.payload obs (T ++ [1]))
                  n.payload obs
                  (crpUnseat (crpUpdate I1 n.payload obs (T ++ [1])
                    n.payload obs) ((T.length :: rcs').headD 0)).1,
                (T.length :: rcs').tail) : CRPState)
              else removeObservationFromPathGo crpRemoveCustomer obs rl' dr' pds'
                (crpUnseat (crpUpdate I1 n.payload obs (T ++ [1])
                  n.payload obs) ((T.length :: rcs').headD 0)).2
                (crpUpdate (crpUpdate I1 n.payload obs (T ++ [1])) n.payload obs
                  (crpUnseat (crpUpdate I1 n.payload obs (T ++ [1])
                    n.payload obs) ((T.length :: rcs').headD 0)).1,
                (T.length :: rcs').tail)) = _
            simp only [List.headD_cons, List.tail_cons]
            rw [hread, hunseat]
            norm_num
            rw [hstate]
          calc (removeObservationFromPathGo crpRemoveCustomer obs (n :: rl')
                (dn :: dr') (pd :: pds') 1
                (crpUpdate I1 n.payload obs (T ++ [1]), T.length :: rcs')).1
              = (removeObservationFromPathGo crpRemoveCustomer obs rl' dr' pds' 1
                (I1, rcs')).1 := by rw [hstep]
            _ = dat := hrcs'

end CRPRoundTrip

/-- C3 counterexample: the insert/remove round trip does not always
restore the table counts.  Concrete input: a single-node path with payload
`7`, whose restaurant for type `0` has two tables of one customer each
(`c = 2`, `t = 2`).  The insertion's randomness seats the new customer at
the first existing table (`c = 3`, `t = 2`, no propagation); the removal's
randomness picks the second table, which closes (`c = 2`, `t = 1`).  The
customer count returns to its original value but the table count does
not. -/
theorem insertRemove_roundTrip_counterexample :
    let path : WrappedNodeList := [⟨0, 0, 7⟩]
    let dat0 : CRPData := fun p y => if p = 7 ∧ y = 0 then [1, 1] else []
    let ins := updatePath crpAddCustomer 0 path [0, 0] [0] [0] (dat0, [0])
    let rem := removeObservationFromPath crpRemoveCustomer path [0] 0
      ([] : List Unit) (ins.1, [1])
    (rem.1 7 0).sum = (dat0 7 0).sum ∧
    ¬((rem.1 7 0).length = (dat0 7 0).length) := by
  decide

/-- C3 amended: from any valid state (every open table holds at least one
customer) and any duplicate-free path with aligned vectors, inserting an
observation (`updatePath`, as called by `insertObservation`) and then
removing it (`removeObservationFromPath`, as called by
`removeObservation`) restores every per-node customer and table count —
indeed the entire seating state — for the removal randomness that undoes
the insertion's table choices; such removal choices always exist.  (The
counterexample shows an arbitrary removal choice can close a different
table, changing `t`.) -/
theorem insertRemove_roundTrip_amended (obs : e_type) (dat : CRPData)
    (path : WrappedNodeList)
    (prob_path discount_path concentration_path : d_vec) (ics : List ℕ)
    (hp : prob_path.length = path.length + 1)
    (hd : discount_path.length = path.length)
    (hc : concentration_path.length = path.length)
    (hnodup : (path.map WrappedNode.payload).Nodup)
    (hvalid : CRPValid dat) :
    ∃ rcs : List ℕ,
      (removeObservationFromPath crpRemoveCustomer path discount_path obs
        ([] : List Unit)
        ((updatePath crpAddCustomer obs path prob_path discount_path
          concentration_path (dat, ics)).1, rcs)).1 = dat := by
  have htake : (prob_path.take path.length).length = path.length := by
    rw [List.length_take]; omega
  have hnodup' : ((path.reverse).map WrappedNode.payload).Nodup := by
    rw [List.map_reverse]
    exact List.nodup_reverse.mpr hnodup
  by_cases hnil : path = []
  · subst hnil
    refine ⟨[], ?_⟩
    rfl
  · obtain ⟨rcs, hrcs⟩ := crp_undo obs path.reverse
      ((prob_path.take path.length).reverse) discount_path.reverse
      concentration_path.reverse
      ((List.replicate path.length (none : Option Unit)).reverse)
      dat ics 1
      (by rw [List.length_reverse, List.length_reverse, htake])
      (by rw [List.length_reverse, List.length_reverse, hd])
      (by rw [List.length_reverse, List.length_reverse, hc])
      (by rw [List.length_reverse, List.length_reverse, List.length_replicate])
      hnodup' hvalid
    refine ⟨rcs, ?_⟩
    have hpdp : (if ([] : List Unit).length = path.length
        then ([] : List Unit).map some
        else List.replicate path.length (none : Option Unit)) =
      List.replicate path.length (none : Option Unit) := by
      rw [if_neg]
      intro h
      exact hnil (List.eq_nil_of_length_eq_zero (by simpa using h.symm))
    show (removeObservationFromPathGo crpRemoveCustomer obs path.reverse
      discount_path.reverse
      (if ([] : List Unit).length = path.length
        then ([] : List Unit).map some
        else List.replicate path.length (none : Option Unit)).reverse 1 _).1 = dat
    rw [hpdp]
    exact hrcs

/-- Witness for the C3 amended theorem at the counterexample's
configuration. -/
theorem insertRemove_roundTrip_amended_witness :
    (([(0 : ℚ), 0] : d_vec).length = ([⟨0, 0, 7⟩] : WrappedNodeList).length + 1) ∧
    (([(0 : ℚ)] : d_vec).length = ([⟨0, 0, 7⟩] : WrappedNodeList).length) ∧
    (([⟨0, 0, 7⟩] : WrappedNodeList).map WrappedNode.payload).Nodup ∧
    CRPValid (fun p y => if p = 7 ∧ y = 0 then [1, 1] else []) ∧
    ∃ rcs : List ℕ,
      (removeObservationFromPath crpRemoveCustomer [⟨0, 0, 7⟩] [(0 : ℚ)] 0
        ([] : List Unit)
        ((updatePath crpAddCustomer 0 [⟨0, 0, 7⟩] [(0 : ℚ), 0] [(0 : ℚ)]
          [(0 : ℚ)]
          ((fun p y => if p = 7 ∧ y = 0 then [1, 1] else []), [0])).1,
          rcs)).1 =
      (fun p y => if p = 7 ∧ y = 0 then [1, 1] else []) :=
  ⟨rfl, rfl, by decide,
    by
      intro p y m hm
      by_cases h : p = 7 ∧ y = 0
      · simp [h] at hm; omega
      · simp [h] at hm,
    insertRemove_roundTrip_amended 0
      (fun p y => if p = 7 ∧ y = 0 then [1, 1] else []) [⟨0, 0, 7⟩]
      [(0 : ℚ), 0] [(0 : ℚ)] [(0 : ℚ)] [0] rfl rfl rfl (by decide)
      (by
        intro p y m hm
        by_cases h : p = 7 ∧ y = 0
        · simp [h] at hm; omega
        · simp [h] at hm)⟩

section LogQLemmas

lemma subMax_vec_of_max_none (v : List LogQ) (h : lmaxQ v = none) :
    subMax_vec v = v := by
  simp [subMax_vec, h]

end LogQLemmas

section DirectGibbsLemmas

lemma dg_vec_length (f : ℕ → LogQ) (n : ℕ) :
    ((List.range n).map f).length = n := by simp

end DirectGibbsLemmas

section LogJointLemmas

variable (logKramp : ℚ → ℚ → ℤ → ℚ) (logQ : ℚ → ℚ)
  (logStirling : ℤ → ℤ → ℚ)
  (getDiscounts : WrappedNodeList → d_vec)
  (getConcentrations : WrappedNodeList → d_vec → d_vec)
  (extendDiscounts : WrappedNodeList → d_vec → d_vec)
  (extendConcentrations : WrappedNodeList → d_vec → d_vec → d_vec)
  (makeData : ℕ → ℚ → ℚ → (ℤ → ℤ → ℚ)) (s : CompactState) (baseProb : ℚ)

lemma dropLast_replicate {α : Type} (x : α) (n : ℕ) :
    (List.replicate n x).dropLast = List.replicate (n - 1) x := by
  cases n with
  | zero => rfl
  | succ m => rw [List.replicate_succ', List.dropLast_concat]; simp

lemma getD_replicate {α : Type} (x dflt : α) (n j : ℕ) (hj : j < n) :
    (List.replicate n x).getD j dflt = x := by
  rw [List.getD_eq_getElem _ _ (by simpa using hj)]
  simp

lemma sum_map_add {α : Type} (l : List α) (f g : α → ℚ) :
    (l.map (fun y => f y + g y)).sum = (l.map f).sum + (l.map g).sum := by
  induction l with
  | nil => simp
  | cons a l ih => simp [ih]; ring

lemma initialDataPath_replicate
    (Hmk : ∀ pay d a, makeData pay d a = logStirling)
    (p : WrappedNodeList) (dP cP : d_vec) :
    initialDataPath makeData p dP cP = List.replicate p.length logStirling := by
  unfold initialDataPath
  have : (fun j : ℕ => makeData ((p.getD j default).payload) (dP.getD j 0)
      (cP.getD j 0)) = fun _ : ℕ => logStirling := by
    funext j; exact Hmk _ _ _
  rw [this, List.map_const', List.length_range]

/-- The path-maintenance step preserves the canonical shape of the three
aligned vectors under the parameter-provider contracts. -/
lemma updatePaths_preserves
    (Hext : ∀ p d, extendDiscounts p d = getDiscounts p)
    (Hexc : ∀ p d c, extendConcentrations p d c = getConcentrations p d)
    (HgdLen : ∀ p, (getDiscounts p).length = p.length)
    (Hdropd : ∀ p, (getDiscounts p).dropLast = getDiscounts p.dropLast)
    (Hdropc : ∀ p, (getConcentrations p (getDiscounts p)).dropLast =
      getConcentrations p.dropLast (getDiscounts p.dropLast))
    (Hmk : ∀ pay d a, makeData pay d a = logStirling)
    (prev cur : WrappedNodeList) (hprev : prev ≠ [])
    (hrel : cur = prev.dropLast ∨ prev.length ≤ cur.length) :
    updatePaths getDiscounts getConcentrations extendDiscounts
      extendConcentrations makeData prev cur (getDiscounts prev)
      (getConcentrations prev (getDiscounts prev))
      (List.replicate prev.length logStirling) =
    (getDiscounts cur, getConcentrations cur (getDiscounts cur),
      List.replicate cur.length logStirling) := by
  have hplen : 0 < prev.length := List.length_pos.mpr hprev
  unfold updatePaths
  by_cases h1 : cur.length = prev.length
  · rw [if_pos h1]
    simp only [Hext, Hexc, Hmk, Prod.mk.injEq]
    refine ⟨trivial, trivial, ?_⟩
    rw [dropLast_replicate]
    have hc : cur.length = (prev.length - 1) + 1 := by omega
    rw [hc, List.replicate_succ']
  · rw [if_neg h1]
    by_cases h2 : cur.length = prev.length - 1
    · rw [if_pos h2]
      have hcur : cur = prev.dropLast := by
        rcases hrel with h | h
        · exact h
        · exact absurd h (by omega)
      subst hcur
      rw [Hdropd, Hdropc, dropLast_replicate, List.length_dropLast]
    · rw [if_neg h2]
      have hle : prev.length ≤ cur.length := by
        rcases hrel with h | h
        · exfalso
          apply h2
          rw [h, List.length_dropLast]
        · exact h
      simp only [Hext, Hexc, Hmk, Prod.mk.injEq]
      refine ⟨trivial, trivial, ?_⟩
      rw [dropLast_replicate, List.length_replicate, List.map_const',
        List.length_range, ← List.replicate_add]
      refine congrArg (fun m => List.replicate m logStirling) ?_
      rw [HgdLen]
      omega

/-- A single node's code contribution equals the claim's formula. -/
lemma computeLogRestaurantProb_eq_spec (p : WrappedNodeList) (dP cP : d_vec)
    (hp : p ≠ []) (hd : dP.length = p.length) :
    computeLogRestaurantProb logKramp logQ s p dP cP
      (List.replicate p.length logStirling) baseProb =
    logRestaurantProbSpec logKramp logQ logStirling s
      ((p.getLastD default).payload) (dP.getD (p.length - 1) 0)
      (cP.getD (p.length - 1) 0) (decide (p.length = 1)) baseProb := by
  have hplen : 0 < p.length := List.length_pos.mpr hp
  simp only [computeLogRestaurantProb, logRestaurantProbSpec, hd]
  rw [getD_replicate _ _ _ _ (by omega)]
  by_cases hc : csGetC s ((p.getLastD default).payload) = 1
  · rw [if_pos hc, if_pos hc]
  · rw [if_neg hc, if_neg hc]
    by_cases hroot : p.length = 1
    · have h0 : p.length - 1 = 0 := by omega
      simp [h0, hroot, sum_map_add]
      try ring
    · have h0 : ¬(p.length - 1 = 0) := by omega
      simp [h0, hroot]
      try ring

/-- The spec-side per-path contribution used in the sum. -/
def logJointContribution (p : WrappedNodeList) : ℚ :=
  logRestaurantProbSpec logKramp logQ logStirling s
    ((p.getLastD default).payload)
    ((getDiscounts p).getD (p.length - 1) 0)
    ((getConcentrations p (getDiscounts p)).getD (p.length - 1) 0)
    (decide (p.length = 1)) baseProb

lemma logJointGo_eq_sum
    (Hext : ∀ p d, extendDiscounts p d = getDiscounts p)
    (Hexc : ∀ p d c, extendConcentrations p d c = getConcentrations p d)
    (HgdLen : ∀ p, (getDiscounts p).length = p.length)
    (Hdropd : ∀ p, (getDiscounts p).dropLast = getDiscounts p.dropLast)
    (Hdropc : ∀ p, (getConcentrations p (getDiscounts p)).dropLast =
      getConcentrations p.dropLast (getDiscounts p.dropLast))
    (Hmk : ∀ pay d a, makeData pay d a = logStirling) :
    ∀ (rest : List WrappedNodeList) (prev : WrappedNodeList) (acc : ℚ),
      prev ≠ [] → (∀ p ∈ rest, p ≠ []) →
      List.Chain (fun p q => q = p.dropLast ∨ p.length ≤ q.length) prev rest →
      logJointGo logKramp logQ getDiscounts getConcentrations extendDiscounts
        extendConcentrations makeData s baseProb rest prev
        (getDiscounts prev) (getConcentrations prev (getDiscounts prev))
        (List.replicate prev.length logStirling) acc =
      acc + (rest.map (logJointContribution logKramp logQ logStirling
        getDiscounts getConcentrations s baseProb)).sum := by
  intro rest
  induction rest with
  | nil => intro prev acc _ _ _; simp [logJointGo]
  | cons cur rest' ih =>
      intro prev acc hprev hne hchain
      rcases hchain with _ | ⟨hrel, hchain'⟩
      have hcur : cur ≠ [] := hne cur (by simp)
      show logJointGo _ _ _ _ _ _ _ _ _ (cur :: rest') prev _ _ _ acc = _
      simp only [logJointGo]
      rw [updatePaths_preserves logStirling getDiscounts getConcentrations
        extendDiscounts extendConcentrations makeData Hext Hexc
        HgdLen Hdropd Hdropc Hmk prev cur hprev hrel]
      rw [ih cur _ hcur (fun p hp => hne p (by simp [hp])) hchain']
      rw [computeLogRestaurantProb_eq_spec logKramp logQ logStirling s
        baseProb cur _ _ hcur (HgdLen cur)]
      show acc + logJointContribution logKramp logQ logStirling getDiscounts
          getConcentrations s baseProb cur + _ = _
      simp only [List.map_cons, List.sum_cons]
      ring

end LogJointLemmas

/-- C8: `computeLogJoint` sums `computeLogRestaurantProb` over every path
of the DFS traversal, and a single node with total counts `c`, `t`
contributes `logKramp(α+d, d, t-1) - logKramp(α+1, 1, c-1) +
Σ_y logStirling(c(n,y), t(n,y))`, plus — at the root only —
`Σ_y t(n,y) · log(baseProb)`; a deterministic node (`c = 1`) contributes
exactly `0`.  The DFS iterator and the parameter provider live outside the
verified source; their contracts (each yielded path non-empty, successive
paths related by ascent or re-extension, `extendDiscounts`/
`extendConcentrations` consistent with the full recomputation, parameter
vectors aligned with paths, per-node additional data computing the
log-Stirling table) are the stated hypotheses. -/
theorem computeLogJoint_correct (logKramp : ℚ → ℚ → ℤ → ℚ) (logQ : ℚ → ℚ)
    (logStirling : ℤ → ℤ → ℚ)
    (getDiscounts : WrappedNodeList → d_vec)
    (getConcentrations : WrappedNodeList → d_vec → d_vec)
    (extendDiscounts : WrappedNodeList → d_vec → d_vec)
    (extendConcentrations : WrappedNodeList → d_vec → d_vec → d_vec)
    (makeData : ℕ → ℚ → ℚ → (ℤ → ℤ → ℚ)) (s : CompactState)
    (baseProb : ℚ) (dfsPaths : List WrappedNodeList)
    (Hne : ∀ p ∈ dfsPaths, p ≠ [])
    (Hadj : List.Chain' (fun p q => q = p.dropLast ∨ p.length ≤ q.length)
      dfsPaths)
    (Hext : ∀ p d, extendDiscounts p d = getDiscounts p)
    (Hexc : ∀ p d c, extendConcentrations p d c = getConcentrations p d)
    (HgdLen : ∀ p, (getDiscounts p).length = p.length)
    (Hdropd : ∀ p, (getDiscounts p).dropLast = getDiscounts p.dropLast)
    (Hdropc : ∀ p, (getConcentrations p (getDiscounts p)).dropLast =
      getConcentrations p.dropLast (getDiscounts p.dropLast))
    (Hmk : ∀ pay d a, makeData pay d a = logStirling) :
    computeLogJoint logKramp logQ getDiscounts getConcentrations
      extendDiscounts extendConcentrations makeData s baseProb dfsPaths =
    (dfsPaths.map (logJointContribution logKramp logQ logStirling
      getDiscounts getConcentrations s baseProb)).sum := by
  match dfsPaths, Hne, Hadj with
  | [], _, _ => rfl
  | p0 :: rest, Hne, Hadj =>
      have hp0 : p0 ≠ [] := Hne p0 (by simp)
      show logJointGo _ _ _ _ _ _ _ _ _ rest p0 (getDiscounts p0)
        (getConcentrations p0 (getDiscounts p0))
        (initialDataPath makeData p0 (getDiscounts p0)
          (getConcentrations p0 (getDiscounts p0)))
        (computeLogRestaurantProb logKramp logQ s p0 (getDiscounts p0)
          (getConcentrations p0 (getDiscounts p0))
          (initialDataPath makeData p0 (getDiscounts p0)
            (getConcentrations p0 (getDiscounts p0))) baseProb) = _
      rw [initialDataPath_replicate logStirling makeData Hmk]
      rw [logJointGo_eq_sum logKramp logQ logStirling getDiscounts
        getConcentrations extendDiscounts extendConcentrations makeData s
        baseProb Hext Hexc HgdLen Hdropd Hdropc Hmk rest p0 _ hp0
        (fun p hp => Hne p (by simp [hp])) Hadj]
      rw [computeLogRestaurantProb_eq_spec logKramp logQ logStirling s
        baseProb p0 _ _ hp0 (HgdLen p0)]
      show logJointContribution logKramp logQ logStirling getDiscounts
          getConcentrations s baseProb p0 + _ = _
      simp only [List.map_cons, List.sum_cons]

/-- Witness for C8 on a two-path DFS traversal of a root-child tree. -/
theorem computeLogJoint_correct_witness :
    (∀ p ∈ ([[⟨0, 0, 0⟩], [⟨0, 0, 0⟩, ⟨0, 1, 1⟩]] :
      List WrappedNodeList), p ≠ []) ∧
    List.Chain' (fun p q : WrappedNodeList =>
      q = p.dropLast ∨ p.length ≤ q.length)
      [[⟨0, 0, 0⟩], [⟨0, 0, 0⟩, ⟨0, 1, 1⟩]] ∧
    computeLogJoint (fun _ _ n => (n : ℚ)) (fun q => q)
      (fun p => List.replicate p.length (1 : ℚ))
      (fun p _ => List.replicate p.length (2 : ℚ))
      (fun p _ => List.replicate p.length (1 : ℚ))
      (fun p _ _ => List.replicate p.length (2 : ℚ))
      (fun _ _ _ => fun c t => (c : ℚ) - t) dgExampleState (1 / 2)
      [[⟨0, 0, 0⟩], [⟨0, 0, 0⟩, ⟨0, 1, 1⟩]] =
    (([[⟨0, 0, 0⟩], [⟨0, 0, 0⟩, ⟨0, 1, 1⟩]] : List WrappedNodeList).map
      (logJointContribution (fun _ _ n => (n : ℚ)) (fun q => q)
        (fun c t => (c : ℚ) - t)
        (fun p => List.replicate p.length (1 : ℚ))
        (fun p _ => List.replicate p.length (2 : ℚ))
        dgExampleState (1 / 2))).sum :=
  ⟨by decide, by simp,
    computeLogJoint_correct (fun _ _ n => (n : ℚ)) (fun q => q)
      (fun c t => (c : ℚ) - t)
      (fun p => List.replicate p.length (1 : ℚ))
      (fun p _ => List.replicate p.length (2 : ℚ))
      (fun p _ => List.replicate p.length (1 : ℚ))
      (fun p _ _ => List.replicate p.length (2 : ℚ))
      (fun _ _ _ => fun c t => (c : ℚ) - t) dgExampleState (1 / 2)
      [[⟨0, 0, 0⟩], [⟨0, 0, 0⟩, ⟨0, 1, 1⟩]]
      (by decide) (by simp) (fun _ _ => rfl) (fun _ _ _ => rfl)
      (fun p => by simp) (fun p => by simp [dropLast_replicate])
      (fun p => by simp [dropLast_replicate]) (fun _ _ _ => rfl)⟩

section DirectGibbsFrame

variable (logKramp : ℚ → ℚ → ℤ → ℚ) (logQ : ℚ → ℚ) (expFin : ℚ → ℚ)
  (sample : List ℚ → ℕ) (baseProb : ℚ)

end DirectGibbsFrame

end LibPlump
